import Mathlib

/-!
A shallow embedding of the `wasm-decompile` intermediate representation and
its function-body pipeline, translated from `src/ir/mod.rs`, `src/ir/passes.rs`
and `src/ir/decode.rs`.

Modelling conventions, used uniformly below:

* `BlockIndex(u32)` is modelled as `Nat`; the program only allocates indices
  by incrementing a counter and never performs wrapping arithmetic on them.
* The Rust `HashMap<BlockIndex, Block>` is modelled as an association list
  `List (Nat × Block)` whose entries are kept sorted by key via `insertB`.
  `HashMap` iteration order is unspecified in Rust; every loop of the source
  that iterates over a map is determinized here by ascending key order.
* `Option::unwrap` on a map access is modelled by a total lookup with an
  explicitly documented default; on every execution path exercised by the
  theorems below the key is present, so the default is never observed.
* Rust `assert!` conditions are mirrored as guards where their failure would
  otherwise change the result; each such spot carries a comment.  An
  `unimplemented!()` (a Rust panic) is modelled by a dedicated `panicked`
  outcome, distinct from the `anyhow::Result` error channel (`errored`).
* `wasm::Ieee32`/`Ieee64` float constants are raw bit patterns in the source
  (no float arithmetic is performed on them); they are modelled as `Nat`.
* `i32`/`i64` literal payloads are carried opaquely (never operated on), and
  are modelled as `Int`.
-/

/-- `wasmparser::ValType` (the subset the program can name). -/
inductive ValType where
  | I32
  | I64
  | F32
  | F64
  | V128
  | Ref
deriving DecidableEq, Repr

/-- `wasm::MemArg`: alignment, offset and memory index of a load/store. -/
structure MemArg where
  align : Nat
  offset : Nat
  memory : Nat
deriving DecidableEq, Repr

/-- `MemoryLoadKind` from `src/ir/mod.rs`. -/
inductive MemoryLoadKind where
  | I32Load
  | I32Load8S
  | I32Load8U
  | I32Load16S
  | I32Load16U
  | I64Load
  | I64Load8S
  | I64Load8U
  | I64Load16S
  | I64Load16U
  | I64Load32S
  | I64Load32U
  | F32Load
  | F64Load
deriving DecidableEq, Repr

/-- `MemoryLoadKind::result_type` from `src/ir/mod.rs`. -/
def MemoryLoadKind.result_type : MemoryLoadKind → ValType
  | .I32Load | .I32Load8S | .I32Load8U | .I32Load16S | .I32Load16U => .I32
  | .I64Load | .I64Load8S | .I64Load8U | .I64Load16S | .I64Load16U
  | .I64Load32S | .I64Load32U => .I64
  | .F32Load => .F32
  | .F64Load => .F64

/-- `UnaryExpression` from `src/ir/mod.rs`.  The source enum has one
constructor per WebAssembly unary operator (59 in total); a representative
subset is embedded here.  None of the claims depends on a particular
operator: every constructor of the source behaves identically up to its
`result_type` entry, mirrored one-for-one below. -/
inductive UnaryExpression where
  | I32Eqz
  | I64Eqz
  | I32Clz
  | I64ExtendI32S
  | F32Neg
  | F64Sqrt
deriving DecidableEq, Repr

/-- `UnaryExpression::result_type` from `src/ir/mod.rs` (same subset). -/
def UnaryExpression.result_type : UnaryExpression → ValType
  | .I32Eqz => .I32
  | .I64Eqz => .I32
  | .I32Clz => .I32
  | .I64ExtendI32S => .I64
  | .F32Neg => .F32
  | .F64Sqrt => .F64

/-- `BinaryExpression` from `src/ir/mod.rs`; representative subset, as for
`UnaryExpression`. -/
inductive BinaryExpression where
  | I32Eq
  | I32GtS
  | I32LtS
  | I32Add
  | I64Add
  | F64Mul
deriving DecidableEq, Repr

/-- `BinaryExpression::result_type` from `src/ir/mod.rs` (same subset). -/
def BinaryExpression.result_type : BinaryExpression → ValType
  | .I32Eq => .I32
  | .I32GtS => .I32
  | .I32LtS => .I32
  | .I32Add => .I32
  | .I64Add => .I64
  | .F64Mul => .F64

/-- `Expression` from `src/ir/mod.rs`.  The payload structs of the source
(`CallExpression`, `CallIndirectExpression`, `GetLocalExpression`,
`GetLocalNExpression`, `GetGlobalExpression`, `SelectExpression`,
`MemoryLoadExpression`, `MemoryGrowExpression`) are flattened into
constructor fields, keeping their field order. -/
inductive Expression where
  | I32Const (value : Int)
  | I64Const (value : Int)
  | F32Const (bits : Nat)
  | F64Const (bits : Nat)
  | BlockParam (i : Nat)
  | Unary (op : UnaryExpression) (operand : Expression)
  | Binary (op : BinaryExpression) (lhs rhs : Expression)
  | Call (func_index : Nat) (params : List Expression)
  | CallIndirect (func_type_index table_index : Nat) (callee_index : Expression)
      (params : List Expression)
  | GetLocal (local_index : Nat)
  | GetLocalN (local_indices : List Nat)
  | GetGlobal (global_index : Nat)
  | Select (condition on_true on_false : Expression)
  | MemoryLoad (kind : MemoryLoadKind) (arg : MemArg) (index : Expression)
  | MemorySize
  | MemoryGrow (value : Expression)
  | Bottom
deriving Repr

/-- `Statement` from `src/ir/mod.rs`; payload structs (`LocalSetStatement`,
`LocalSetNStatement`, `GlobalSetStatement`, `MemoryStoreStatement`,
`IfStatement`) flattened into constructor fields. -/
inductive Statement where
  | Nop
  | Drop (value : Expression)
  | LocalSet (index : Nat) (value : Expression)
  | LocalSetN (index : List Nat) (value : Expression)
  | GlobalSet (index : Nat) (value : Expression)
  | MemoryStore (arg : MemArg) (index value : Expression)
  | If (condition : Expression) (true_statements false_statements : List Statement)
  | Call (func_index : Nat) (params : List Expression)
  | CallIndirect (func_type_index table_index : Nat) (callee_index : Expression)
      (params : List Expression)
deriving Repr

/-- `Terminator` from `src/ir/mod.rs`. -/
inductive Terminator where
  | Unknown
  | Unreachable
  | Return (values : List Expression)
  | Br (target : Nat) (values : List Expression)
  | BrIf (condition : Expression) (true_target false_target : Nat)
      (values : List Expression)
  | BrTable (targets : List Nat) (default_target : Nat) (values : List Expression)
deriving Repr

/-- `Block` from `src/ir/mod.rs`. -/
structure Block where
  params : List ValType
  statements : List Statement
  terminator : Terminator
deriving Repr

/-- `Local` from `src/ir/mod.rs`: a value type paired with a printable name. -/
structure LocalDecl where
  ty : ValType
  name : String
deriving DecidableEq, Repr

/-- The function type of `wasm::FuncType`: parameter and result value types. -/
structure FuncTy where
  params : List ValType
  results : List ValType
deriving DecidableEq, Repr

/-- `Func` from `src/ir/mod.rs`. -/
structure Func where
  index : Nat
  ty : FuncTy
  locals : List LocalDecl
  blocks : List (Nat × Block)
  entry_block : Nat
deriving Repr

/-- Lookup in the block map (`HashMap::get`). -/
def lookupB : List (Nat × Block) → Nat → Option Block
  | [], _ => none
  | e :: rest, k => if e.1 = k then some e.2 else lookupB rest k

/-- Insertion into the block map (`HashMap::insert`), keeping entries sorted
by key.  An existing entry for the same key is replaced. -/
def insertB (k : Nat) (v : Block) : List (Nat × Block) → List (Nat × Block)
  | [] => [(k, v)]
  | (k', v') :: rest =>
    if k < k' then (k, v) :: (k', v') :: rest
    else if k = k' then (k, v) :: rest
    else (k', v') :: insertB k v rest

/-- In-place update of one entry of the block map (`HashMap::get_mut`
followed by a field assignment).  Keys and entry order are unchanged. -/
def updateB (blocks : List (Nat × Block)) (k : Nat) (f : Block → Block) :
    List (Nat × Block) :=
  blocks.map (fun e => if e.1 = k then (e.1, f e.2) else e)

/-- The key list of the block map. -/
def keysOf (blocks : List (Nat × Block)) : List Nat :=
  blocks.map Prod.fst

/-- `Terminator::successors` from `src/ir/mod.rs`. -/
def Terminator.successors : Terminator → List Nat
  | .Br target _ => [target]
  | .BrIf _ true_block false_block _ => [true_block, false_block]
  | .BrTable targets unknown_target _ => targets ++ [unknown_target]
  | _ => []

/-- `Block::successors` from `src/ir/mod.rs`. -/
def Block.successors (b : Block) : List Nat :=
  b.terminator.successors

/-- `Block::is_trivial_block` from `src/ir/mod.rs`: no parameters, no
statements, and a `Br` with no arguments; yields the forwarding target. -/
def Block.is_trivial_block (b : Block) : Option Nat :=
  if b.params.isEmpty && b.statements.isEmpty then
    match b.terminator with
    | .Br target values => if values.isEmpty then some target else none
    | _ => none
  else none

/-- Total lookup in an index-remapping table, modelling
`mapping.get(target).unwrap()`.  Every call site below passes a mapping that
contains the key; a missing key (which makes the source program panic) is
modelled by the identity. -/
def map_get (mapping : List (Nat × Nat)) (t : Nat) : Nat :=
  (mapping.lookup t).getD t

/-- `Terminator::remap_block_indices` from `src/ir/mod.rs`. -/
def Terminator.remap_block_indices (t : Terminator) (mapping : List (Nat × Nat)) :
    Terminator :=
  match t with
  | .Br target values => .Br (map_get mapping target) values
  | .BrIf c true_block false_block values =>
    .BrIf c (map_get mapping true_block) (map_get mapping false_block) values
  | .BrTable targets unknown_target values =>
    .BrTable (targets.map (map_get mapping)) (map_get mapping unknown_target) values
  | other => other

/-- `Block::remap_block_indices` from `src/ir/mod.rs`. -/
def Block.remap_block_indices (b : Block) (mapping : List (Nat × Nat)) : Block :=
  { b with terminator := b.terminator.remap_block_indices mapping }

/-- `Func::remap_block_indices` from `src/ir/mod.rs`: rebuild the block map
with remapped keys and remapped terminators, and remap the entry pointer. -/
def Func.remap_block_indices (f : Func) (mapping : List (Nat × Nat)) : Func :=
  { f with
    blocks := f.blocks.foldl
      (fun nb e => insertB (map_get mapping e.1) (e.2.remap_block_indices mapping) nb) [],
    entry_block := map_get mapping f.entry_block }

/-! ## `src/ir/passes.rs` -/

/-- `Func::jump_threading` from `src/ir/passes.rs`: map every trivial block
to its immediate `Br` target and every other block to itself (one pass over
the map, no chain following), then remap every terminator through that
mapping.  Keys and the entry pointer are not touched. -/
def trivial_blocks_map (blocks : List (Nat × Block)) : List (Nat × Nat) :=
  blocks.map (fun e => (e.1, (e.2.is_trivial_block).getD e.1))

/-- `Func::jump_threading`, second loop: rewrite every terminator via the
mapping built by the first loop. -/
def Func.jump_threading (f : Func) : Func :=
  { f with
    blocks := f.blocks.map
      (fun e => (e.1, e.2.remap_block_indices (trivial_blocks_map f.blocks))) }

/-- `Func::get_all_predecessors` from `src/ir/passes.rs`, read off at one
key: the list of blocks having `t` among their successors, with multiplicity
(a `BrIf` with both arms equal contributes its block twice), in block-map
iteration order (ascending keys, see the modelling conventions). -/
def preds_of (blocks : List (Nat × Block)) (t : Nat) : List Nat :=
  blocks.foldl
    (fun acc e => acc ++ ((e.2.successors.filter (fun s => s = t)).map (fun _ => e.1)))
    []

/-- Ascending-order insertion used to determinize `HashMap` key iteration. -/
def insertSortedNat (k : Nat) : List Nat → List Nat
  | [] => [k]
  | k' :: rest =>
    if k < k' then k :: k' :: rest
    else if k = k' then k' :: rest
    else k' :: insertSortedNat k rest

/-- The distinct keys of the predecessor map (the blocks that occur as a
successor of some block), in ascending order. -/
def pred_map_keys (blocks : List (Nat × Block)) : List Nat :=
  (blocks.foldl (fun acc e => acc ++ e.2.successors) []).foldl
    (fun acc s => insertSortedNat s acc) []

/-- One candidate step of `Func::merge_trivial_branch_blocks` from
`src/ir/passes.rs`.  `preds` is the predecessor map computed once at the
start of the pass (the source computes `get_all_predecessors` once and then
mutates the block map, so the map can be stale).  The two `assert!`s of the
source (`predecessor_successors[0] == block_index` and `predecessor`
terminated by `Br`) are mirrored as guards; on inputs where the asserts hold
the behaviour is identical, and on inputs where they fail the source
program panics. -/
def merge_trivial_step (preds : Nat → List Nat) (st : List (Nat × Block) × Bool)
    (block_index : Nat) : List (Nat × Block) × Bool :=
  let (blocks, changed) := st
  let predecessors := preds block_index
  if h : predecessors.length = 1 then
    let p := predecessors.head (by intro hnil; rw [hnil] at h; simp at h)
    match lookupB blocks p with
    | none => (blocks, changed)
    | some predecessor =>
      if predecessor.successors = [block_index] then
        match lookupB blocks block_index with
        | none => (blocks, changed)
        | some block =>
          if block.params.length ≠ 0 then (blocks, changed)
          else
            match predecessor.terminator with
            | .Br _ _ =>
              -- `std::mem::take(&mut block.statements)` and the terminator swap
              let blocks := updateB blocks block_index
                (fun b => { b with statements := [], terminator := .Unknown })
              let blocks := updateB blocks p
                (fun b => { b with
                  statements := b.statements ++ block.statements,
                  terminator := block.terminator })
              (blocks, true)
            | _ => (blocks, changed)
      else (blocks, changed)
  else (blocks, changed)

/-- `Func::merge_trivial_branch_blocks` from `src/ir/passes.rs`: for every
block with exactly one predecessor whose predecessor has it as sole
successor and which has no parameters, move its statements and terminator
into the predecessor.  Returns the new block map and the `changed` flag. -/
def Func.merge_trivial_branch_blocks (f : Func) : Func × Bool :=
  let preds := fun t => preds_of f.blocks t
  let st := (pred_map_keys f.blocks).foldl (merge_trivial_step preds) (f.blocks, false)
  ({ f with blocks := st.1 }, st.2)

/-- One candidate step of `Func::merge_if_blocks` from `src/ir/passes.rs`.
`preds` is again the predecessor map captured once at pass start.  Note on
fidelity: the source contains a predecessor check on `D`
(`for predecessor in predecessors_d { if *predecessor != *index_b ||
*predecessor != *index_c { continue; } }`, lines 125–130) whose `continue`
binds to that inner `for` loop, so the loop has no effect whatsoever on
control flow; it is therefore (faithfully) not modelled.  The two
`assert_eq!`s on `predecessor_map[index_b][0]`/`[index_c][0]` hold whenever
the length checks pass and are not modelled. -/
def merge_if_step (preds : Nat → List Nat) (st : List (Nat × Block) × Bool)
    (index_a : Nat) : List (Nat × Block) × Bool :=
  let (blocks, changed) := st
  match lookupB blocks index_a with
  | none => (blocks, changed)
  | some block_a =>
    match block_a.terminator with
    | .BrIf condition index_b index_c params =>
      if params.length ≠ 0 then (blocks, changed)
      else
        match lookupB blocks index_b, lookupB blocks index_c with
        | some block_b, some block_c =>
          if (preds index_b).length ≠ 1 || (preds index_c).length ≠ 1 then
            (blocks, changed)
          else
            let successors_b := block_b.successors
            let successors_c := block_c.successors
            if successors_b.length > 1 || successors_c.length > 1 then
              (blocks, changed)
            else
              -- the four-way match on `(successor_b, successor_c)`
              let dres : Option (Option Nat) :=
                match successors_b.head?, successors_c.head? with
                | some x, some y => if x = y then some (some x) else none
                | some x, none => some (some x)
                | none, some y => some (some y)
                | none, none => some none
              match dres with
              | none => (blocks, changed)  -- distinct successors: `continue`
              | some index_d =>
                let d_ok :=
                  match index_d with
                  | some d =>
                    match lookupB blocks d with
                    | some block_d => block_d.params.length = 0
                    | none => false
                  | none => true
                if !d_ok then (blocks, changed)
                else
                  let if_statement : Statement :=
                    .If condition block_b.statements block_c.statements
                  let blocks := updateB blocks index_a
                    (fun b => { b with
                      terminator := (match index_d with
                        | some x => .Br x []
                        | none => .Unreachable),
                      statements := b.statements ++ [if_statement] })
                  (blocks, true)
        | _, _ => (blocks, changed)
    | _ => (blocks, changed)

/-- `Func::merge_if_blocks` from `src/ir/passes.rs`: fold the rewrite over
the keys captured at pass start (ascending order, see conventions). -/
def Func.merge_if_blocks (f : Func) : Func × Bool :=
  let preds := fun t => preds_of f.blocks t
  let st := (keysOf f.blocks).foldl (merge_if_step preds) (f.blocks, false)
  ({ f with blocks := st.1 }, st.2)

/-- The worklist loop of `Func::eliminate_dead_code` from
`src/ir/passes.rs`.  The Rust `Vec` is popped from its end; the stack is
modelled with its top at the head, pushes are conses, preserving LIFO
order.  A successor absent from the map (on which the source would panic
via `unwrap`) contributes no further successors. -/
def dce_loop (blocks : List (Nat × Block)) :
    Nat → List Nat → List Nat → List Nat
  | 0, _, alive => alive
  | _ + 1, [], alive => alive
  | fuel + 1, current :: rest, alive =>
    let succs := ((lookupB blocks current).map Block.successors).getD []
    let st := succs.foldl
      (fun (st : List Nat × List Nat) s =>
        if s ∈ st.2 then st else (s :: st.1, s :: st.2))
      (rest, alive)
    dce_loop blocks fuel st.1 st.2

/-- Fuel sufficient for `dce_loop`: each pushed index is simultaneously
added to `alive` and never re-added, so the number of loop iterations is
bounded by the number of distinct indices ever pushed. -/
def dce_fuel (blocks : List (Nat × Block)) : Nat :=
  1 + blocks.length + blocks.foldl (fun n e => n + e.2.successors.length) 0

/-- `Func::eliminate_dead_code` from `src/ir/passes.rs`: retain exactly the
blocks reachable from the entry block along successors. -/
def Func.eliminate_dead_code (f : Func) : Func :=
  let alive := dce_loop f.blocks (dce_fuel f.blocks) [f.entry_block] [f.entry_block]
  { f with blocks := f.blocks.filter (fun e => e.1 ∈ alive) }

/-- `Func::reconstruct_control_flow` from `src/ir/passes.rs`:
`eliminate_dead_code`, then iterate
`merge_trivial_branch_blocks() || merge_if_blocks()` (with Rust's
short-circuit: when the first merge reports a change the second does not
run that iteration) until no change, running `eliminate_dead_code` after
every change.  The source's `while` loop is modelled with fuel; every
changed iteration strictly shrinks the reachable block map, so
`f.blocks.length + 1` rounds always suffice on the inputs below. -/
def reconstruct_loop : Nat → Func → Func
  | 0, f => f
  | fuel + 1, f =>
    let (f1, c1) := f.merge_trivial_branch_blocks
    if c1 then reconstruct_loop fuel f1.eliminate_dead_code
    else
      let (f2, c2) := f1.merge_if_blocks
      if c2 then reconstruct_loop fuel f2.eliminate_dead_code
      else f2

/-- `Func::reconstruct_control_flow` (entry point). -/
def Func.reconstruct_control_flow (f : Func) : Func :=
  let f := f.eliminate_dead_code
  reconstruct_loop (f.blocks.length + 1) f

/-- `Func::po_recursive` from `src/ir/passes.rs`: naive recursive DFS
post-order.  Structured with fuel (the recursion depth is bounded by the
number of distinct visited indices); the `HashSet` of visited indices is a
list queried by membership. -/
def po_recursive (blocks : List (Nat × Block)) :
    Nat → Nat → List Nat × List Nat → List Nat × List Nat
  | 0, _, st => st
  | fuel + 1, current, (visited, po) =>
    if current ∈ visited then (visited, po)
    else
      let visited := current :: visited
      let succs := ((lookupB blocks current).map Block.successors).getD []
      let st := succs.foldl (fun st t => po_recursive blocks fuel t st) (visited, po)
      (st.1, st.2 ++ [current])

/-- Fuel sufficient for `po_recursive`: as for `dce_fuel`. -/
def po_fuel (blocks : List (Nat × Block)) : Nat :=
  1 + blocks.length + blocks.foldl (fun n e => n + e.2.successors.length) 0

/-- `Func::rpo` from `src/ir/passes.rs`: DFS post-order from the entry,
reversed. -/
def Func.rpo (f : Func) : List Nat :=
  (po_recursive f.blocks (po_fuel f.blocks) f.entry_block ([], [])).2.reverse

/-- The renumbering table of `Func::renumber`: the i-th block in reverse
post-order is mapped to index i. -/
def rpo_mapping (rpo : List Nat) : List (Nat × Nat) :=
  (rpo.enum).map (fun p => (p.2, p.1))

/-- `Func::renumber` from `src/ir/passes.rs`. -/
def Func.renumber (f : Func) : Func :=
  f.remap_block_indices (rpo_mapping f.rpo)

/-- `Func::optimize` from `src/ir/mod.rs`: structurer, jump threading,
dead-block elimination, RPO renumbering, in that order. -/
def Func.optimize (f : Func) : Func :=
  f.reconstruct_control_flow.jump_threading.eliminate_dead_code.renumber

/-! ## `src/ir/decode.rs`

The validator (`wasmparser::FuncValidator`) is an external collaborator: the
decoder consults it only for type information (function types, global types)
and, in debug builds, for invariant checks.  It is modelled by an immutable
resources snapshot `ModuleEnv`; the per-operator `validator.op` call, which
can only reject invalid input, is not modelled — the decoder embedding is
applied to validated operator streams.  Unsupported operators (`br_table`,
stores, most arithmetic) are simply absent from the embedded operator type;
every visit function below mirrors its source namesake on the embedded
subset. -/

/-- The validator's resources snapshot: recursive types (as function types),
the type index of every function, and global types. -/
structure ModuleEnv where
  types : List FuncTy
  type_of_func : List Nat
  globals : List ValType
deriving Repr

/-- `validator.resources().sub_type_at(i) ... unwrap_func()`; an absent
index (a panic in the source) is modelled by the empty function type. -/
def ModuleEnv.sub_type_at (env : ModuleEnv) (i : Nat) : FuncTy :=
  env.types.getD i ⟨[], []⟩

/-- `validator.resources().type_index_of_function(f).unwrap()`. -/
def ModuleEnv.type_index_of_function (env : ModuleEnv) (fi : Nat) : Nat :=
  env.type_of_func.getD fi 0

/-- `wasm::BlockType`. -/
inductive BlockType where
  | Empty
  | Type (ty : ValType)
  | FuncType (type_index : Nat)
deriving DecidableEq, Repr

/-- `FrameKind` from `src/ir/decode.rs`. -/
inductive FrameKind where
  | Func
  | Block (join_block : Nat)
  | Loop (header_block join_block : Nat)
  | If (true_block false_block join_block : Nat)
  | Else (true_block false_block join_block : Nat)
deriving DecidableEq, Repr

/-- `FrameKind::is_func`. -/
def FrameKind.is_func : FrameKind → Bool
  | .Func => true
  | _ => false

/-- `FrameKind::branch_target_block`.  The `Func` case is `unreachable!()`
in the source (callers handle it before calling); it is given the dummy
value 0 here and is never consulted by the call sites below. -/
def FrameKind.branch_target_block : FrameKind → Nat
  | .Block join_block => join_block
  | .Loop header_block _ => header_block
  | .If _ _ join_block => join_block
  | .Else _ _ join_block => join_block
  | .Func => 0

/-- `Frame` from `src/ir/decode.rs`. -/
structure Frame where
  kind : FrameKind
  blockty : BlockType
  unreachable : Bool
  stack_height : Nat
deriving Repr

instance : Inhabited Frame := ⟨⟨.Func, .Empty, false, 0⟩⟩

/-- `Builder` from `src/ir/decode.rs`.  The frame stack and operand stack
are Rust `Vec`s pushed and popped at the end; they are modelled literally,
with the top as the last element. -/
structure Builder where
  env : ModuleEnv
  func_index : Nat
  func_type : FuncTy
  locals : List LocalDecl
  temp_count : Nat
  frames : List Frame
  stack : List Expression
  blocks : List (Nat × Block)
  start_block : Nat
  current_block : Nat
  return_block : Nat
  next_block_index : Nat
deriving Repr

/-- `Builder::new` from `src/ir/decode.rs`: entry block at index 0, a
dedicated return block at index 1 whose terminator returns its own block
parameters, `argN`-named locals for the declared parameters prepended to
the declared locals, and a single `Func` frame. -/
def Builder.new (env : ModuleEnv) (func_index : Nat) (locals : List LocalDecl) :
    Builder :=
  let func_type := env.sub_type_at (env.type_index_of_function func_index)
  let start_block : Block := ⟨[], [], .Unknown⟩
  let return_block_results :=
    (func_type.results.enum).map (fun p => Expression.BlockParam p.1)
  let return_block : Block := ⟨func_type.results, [], .Return return_block_results⟩
  let blocks := insertB 1 return_block (insertB 0 start_block [])
  let locals_with_args :=
    (func_type.params.enum).map
      (fun p => LocalDecl.mk p.2 ("arg" ++ Nat.repr p.1)) ++ locals
  { env
    func_index
    func_type
    locals := locals_with_args
    temp_count := 0
    frames := [{ kind := .Func, unreachable := false, stack_height := 0,
                 blockty := .FuncType (env.type_index_of_function func_index) }]
    stack := []
    blocks
    start_block := 0
    current_block := 0
    return_block := 1
    next_block_index := 2 }

/-- `Builder::func_type` (the method; distinct from the field). -/
def Builder.func_type_at (b : Builder) (type_index : Nat) : FuncTy :=
  b.env.sub_type_at type_index

/-- `Builder::type_of_func`. -/
def Builder.type_of_func (b : Builder) (func_index : Nat) : FuncTy :=
  b.func_type_at (b.env.type_index_of_function func_index)

/-- `Builder::expr_type` from `src/ir/decode.rs`: the list of value types a
pending expression produces.  `Bottom` has the empty list.  Out-of-range
local and global indices (panics in the source) are modelled by `I32`.  The
`assert_eq!(on_true, on_false)` of the `Select` arm is not modelled (the
source returns `on_true` when it holds). -/
def Builder.expr_type (b : Builder) : Expression → Block → List ValType
  | .I32Const _, _ => [.I32]
  | .I64Const _, _ => [.I64]
  | .F32Const _, _ => [.F32]
  | .F64Const _, _ => [.F64]
  | .GetLocal local_index, _ => [(b.locals.getD local_index ⟨.I32, ""⟩).ty]
  | .GetLocalN local_indices, _ =>
    local_indices.map (fun x => (b.locals.getD x ⟨.I32, ""⟩).ty)
  | .GetGlobal global_index, _ => [b.env.globals.getD global_index .I32]
  | .Call func_index _, _ => (b.type_of_func func_index).results
  | .CallIndirect func_type_index _ _ _, _ => (b.func_type_at func_type_index).results
  | .MemorySize, _ => [.I32]
  | .MemoryGrow _, _ => [.I32]
  | .MemoryLoad kind _ _, _ => [kind.result_type]
  | .Unary op _, _ => [op.result_type]
  | .Binary op _ _, _ => [op.result_type]
  | .Select _ on_true _, in_block => b.expr_type on_true in_block
  | .BlockParam i, in_block => [in_block.params.getD i .I32]
  | .Bottom, _ => []

/-- `Builder::blockty_params`. -/
def Builder.blockty_params (b : Builder) : BlockType → List ValType
  | .Empty => []
  | .FuncType type_index => (b.func_type_at type_index).params
  | .Type _ => []

/-- `Builder::blockty_results`. -/
def Builder.blockty_results (b : Builder) : BlockType → List ValType
  | .Empty => []
  | .FuncType type_index => (b.func_type_at type_index).results
  | .Type ty => [ty]

/-- `Builder::blockty_params_count`. -/
def Builder.blockty_params_count (b : Builder) (bt : BlockType) : Nat :=
  match bt with
  | .Empty => 0
  | .FuncType type_index => (b.func_type_at type_index).params.length
  | .Type _ => 0

/-- `Builder::blockty_results_count`. -/
def Builder.blockty_results_count (b : Builder) (bt : BlockType) : Nat :=
  match bt with
  | .Empty => 0
  | .FuncType type_index => (b.func_type_at type_index).results.length
  | .Type _ => 1

/-- `Builder::add_block`: insert at the next fresh index and bump it. -/
def Builder.add_block (b : Builder) (node : Block) : Nat × Builder :=
  let block_index := b.next_block_index
  (block_index,
   { b with blocks := insertB block_index node b.blocks,
            next_block_index := block_index + 1 })

/-- `Builder::push_frame`. -/
def Builder.push_frame (b : Builder) (frame : Frame) : Builder :=
  { b with frames := b.frames ++ [frame] }

/-- `Builder::pop_frame` (`unwrap` on an empty frame stack, which panics in
the source, yields the default frame; the frame stack is never empty at the
call sites). -/
def Builder.pop_frame (b : Builder) : Frame × Builder :=
  ((b.frames.getLast?).getD default, { b with frames := b.frames.dropLast })

/-- `Builder::frame_at`: the frame `relative_depth` levels below the top. -/
def Builder.frame_at (b : Builder) (relative_depth : Nat) : Frame :=
  b.frames.getD (b.frames.length - relative_depth - 1) default

/-- `Builder::frame_unreachable`. -/
def Builder.frame_unreachable (b : Builder) (relative_depth : Nat) : Bool :=
  (b.frame_at relative_depth).unreachable

/-- `Builder::branch_target_block`. -/
def Builder.branch_target_block (b : Builder) (relative_depth : Nat) : Nat :=
  let frame := b.frame_at relative_depth
  if frame.kind.is_func then b.return_block else frame.kind.branch_target_block

/-- `Builder::push_block_params`: push `BlockParam 0 .. BlockParam (n-1)`. -/
def Builder.push_block_params (b : Builder) (n : Nat) : Builder :=
  { b with stack := b.stack ++ (List.range n).map Expression.BlockParam }

/-- One pop of `Builder::pop`/`Builder::popn`: at or below the current
frame's stack height the result is `Bottom` (the source asserts that the
frame is unreachable there, and asserts `len >= height`; both hold on the
runs below), otherwise the top of the operand stack is removed. -/
def Builder.pop (b : Builder) : Expression × Builder :=
  let frame := b.frame_at 0
  if b.stack.length ≤ frame.stack_height then (.Bottom, b)
  else
    match b.stack.getLast? with
    | some e => (e, { b with stack := b.stack.dropLast })
    | none => (.Bottom, b)

/-- `Builder::popn`: `n` single pops; the source pushes the popped values
and reverses at the end, producing deepest-first order, which consing as we
pop produces directly. -/
def Builder.popn (b : Builder) (n : Nat) : List Expression × Builder :=
  (List.range n).foldl
    (fun (st : List Expression × Builder) _ =>
      let (e, b) := st.2.pop
      (e :: st.1, b))
    ([], b)

/-- `Builder::pop_branch_params`: result arity for `Block`/`If`/`Else`,
parameter arity for `Loop`, function result arity for `Func`. -/
def Builder.pop_branch_params (b : Builder) (relative_depth : Nat) :
    List Expression × Builder :=
  let frame := b.frame_at relative_depth
  let count :=
    match frame.kind with
    | .Block _ => b.blockty_results_count frame.blockty
    | .Loop _ _ => b.blockty_params_count frame.blockty
    | .If _ _ _ => b.blockty_results_count frame.blockty
    | .Else _ _ _ => b.blockty_results_count frame.blockty
    | .Func => b.func_type.results.length
  b.popn count

/-- `Builder::after_unconditional_branch`: emit `Drop` statements for every
operand above the current frame's entry height, truncate the stack there,
and mark the frame unreachable.  (The source asserts the frame was not
already unreachable; all call sites are guarded.) -/
def Builder.after_unconditional_branch (b : Builder) : Builder :=
  match b.frames.getLast? with
  | none => b
  | some frame =>
    let dropped := b.stack.drop frame.stack_height
    let blocks := updateB b.blocks b.current_block
      (fun blk => { blk with
        statements := blk.statements ++ dropped.map Statement.Drop })
    { b with
      blocks
      stack := b.stack.take frame.stack_height
      frames := b.frames.dropLast ++ [{ frame with unreachable := true }] }

/-- One iteration of the loop in `Builder::sync_stack_before_statement`,
at stack slot `i`: skip `Bottom` (empty type list); otherwise mint one
fresh `tempN` local per result value type, append one `LocalSetN` statement
initializing those locals from the slot's expression, and replace the slot
with a `GetLocalN` of the fresh locals. -/
def Builder.sync_slot (b : Builder) (i : Nat) : Builder :=
  let e := b.stack.getD i .Bottom
  let in_block := (lookupB b.blocks b.current_block).getD ⟨[], [], .Unknown⟩
  let expr_ty := b.expr_type e in_block
  if expr_ty.isEmpty then b
  else
    let temps_needed := expr_ty.length
    let local_start_index := b.locals.length
    let temp_start_index := b.temp_count
    let new_locals := (expr_ty.enum).map
      (fun p => LocalDecl.mk p.2 ("temp" ++ Nat.repr (temp_start_index + p.1)))
    let local_indices := (List.range temps_needed).map (fun l => local_start_index + l)
    let replacement := Expression.GetLocalN local_indices
    let init_temp_value := e
    { b with
      locals := b.locals ++ new_locals
      temp_count := temp_start_index + temps_needed
      stack := b.stack.set i replacement
      blocks := updateB b.blocks b.current_block
        (fun blk => { blk with
          statements := blk.statements ++ [.LocalSetN local_indices init_temp_value] }) }

/-- `Builder::sync_stack_before_statement` from `src/ir/decode.rs`: run
`sync_slot` on every slot from the current frame's stack height up to the
top of the operand stack (the slot range is fixed at entry; the loop body
replaces slots in place and never changes the stack's length). -/
def Builder.sync_stack_before_statement (b : Builder) : Builder :=
  let h := ((b.frames.getLast?).getD default).stack_height
  (List.range' h (b.stack.length - h)).foldl Builder.sync_slot b

/-- `Builder::check_stack_for_block`. -/
def Builder.check_stack_for_block (b : Builder) (block_params : Nat) :
    List Expression × Builder :=
  let (results, b) := b.popn block_params
  let b := b.sync_stack_before_statement
  let b := b.push_block_params block_params
  (results, b)

/-- Set the terminator of one block (`self.blocks.get_mut(..).unwrap()`
followed by the terminator assignment). -/
def Builder.set_terminator (b : Builder) (block : Nat) (t : Terminator) : Builder :=
  { b with blocks := updateB b.blocks block (fun blk => { blk with terminator := t }) }

/-- `Builder::visit_block_op`. -/
def Builder.visit_block_op (b : Builder) (blockty : BlockType) : Builder :=
  let block_params := b.blockty_params blockty
  let block_results := b.blockty_results blockty
  let block_params_count := block_params.length
  let (inner_block, b) := b.add_block ⟨block_params, [], .Unknown⟩
  let (join_block, b) := b.add_block ⟨block_results, [], .Unknown⟩
  let (results, b) := b.check_stack_for_block block_params_count
  let stack_height := b.stack.length - block_params_count
  let b := b.set_terminator b.current_block (.Br inner_block results)
  let b := { b with current_block := inner_block }
  b.push_frame ⟨.Block join_block, blockty, false, stack_height⟩

/-- `Builder::visit_loop_op`. -/
def Builder.visit_loop_op (b : Builder) (blockty : BlockType) : Builder :=
  let block_params := b.blockty_params blockty
  let block_results := b.blockty_results blockty
  let block_params_count := block_params.length
  let (header_block, b) := b.add_block ⟨block_params, [], .Unknown⟩
  let (join_block, b) := b.add_block ⟨block_results, [], .Unknown⟩
  let (results, b) := b.check_stack_for_block block_params_count
  let stack_height := b.stack.length - block_params_count
  let b := b.set_terminator b.current_block (.Br header_block results)
  let b := { b with current_block := header_block }
  b.push_frame ⟨.Loop header_block join_block, blockty, false, stack_height⟩

/-- `Builder::visit_if_op`. -/
def Builder.visit_if_op (b : Builder) (blockty : BlockType) : Builder :=
  let block_params := b.blockty_params blockty
  let block_results := b.blockty_results blockty
  let block_params_count := block_params.length
  let (true_block, b) := b.add_block ⟨block_params, [], .Unknown⟩
  let (false_block, b) := b.add_block ⟨block_params, [], .Unknown⟩
  let (join_block, b) := b.add_block ⟨block_results, [], .Unknown⟩
  let (condition, b) := b.pop
  let (results, b) := b.check_stack_for_block block_params_count
  let stack_height := b.stack.length - block_params_count
  let b := b.set_terminator b.current_block
    (.BrIf condition true_block false_block results)
  let b := { b with current_block := true_block }
  b.push_frame ⟨.If true_block false_block join_block, blockty, false, stack_height⟩

/-- `Builder::visit_else_op`.  The source's `unreachable!()` on a non-`If`
frame (validation excludes it) leaves the builder unchanged here. -/
def Builder.visit_else_op (b : Builder) : Builder :=
  let frame := b.frame_at 0
  let block_params_count := (b.blockty_params frame.blockty).length
  let block_results_count := (b.blockty_results frame.blockty).length
  match frame.kind with
  | .If true_block false_block join_block =>
    let (results, b) := b.popn block_results_count
    let (frame, b) := b.pop_frame
    let b :=
      if frame.unreachable then { b with stack := b.stack.take frame.stack_height }
      else b  -- the source asserts the stack is already at the frame height
    let b := b.push_block_params block_params_count
    let b := b.push_frame ⟨.Else true_block false_block join_block,
      frame.blockty, false, frame.stack_height⟩
    let b := b.set_terminator b.current_block (.Br join_block results)
    { b with current_block := false_block }
  | _ => b

/-- `Builder::visit_end_op`.  (`validator.finish` only checks for errors
and is not modelled.) -/
def Builder.visit_end_op (b : Builder) : Builder :=
  let block_results_count := b.blockty_results_count (b.frame_at 0).blockty
  let (results, b) := b.popn block_results_count
  let (frame, b) := b.pop_frame
  let b :=
    if frame.unreachable then { b with stack := b.stack.take frame.stack_height }
    else b  -- the source asserts the stack is already at the frame height
  match frame.kind with
  | .Func =>
    if !frame.unreachable then b.set_terminator b.current_block (.Return results)
    else b
  | .Block join_block =>
    let b :=
      if !frame.unreachable then b.set_terminator b.current_block (.Br join_block results)
      else b
    let b := { b with current_block := join_block }
    b.push_block_params block_results_count
  | .Loop _ join_block =>
    let b :=
      if !frame.unreachable then b.set_terminator b.current_block (.Br join_block results)
      else b
    let b := { b with current_block := join_block }
    b.push_block_params block_results_count
  | .If _ false_block join_block =>
    let b :=
      if !frame.unreachable then b.set_terminator b.current_block (.Br join_block results)
      else b
    -- no `else`: wire an empty false block with `Br(join, params-as-results)`
    let block_params_count := block_results_count
    let b := b.push_block_params block_params_count
    let (results2, b) := b.popn block_results_count
    let b := b.set_terminator false_block (.Br join_block results2)
    let b := { b with current_block := join_block }
    b.push_block_params block_results_count
  | .Else _ _ join_block =>
    let b :=
      if !frame.unreachable then b.set_terminator b.current_block (.Br join_block results)
      else b
    let b := { b with current_block := join_block }
    b.push_block_params block_results_count

/-- `Builder::visit_unreachable_op`. -/
def Builder.visit_unreachable_op (b : Builder) : Builder :=
  (b.set_terminator b.current_block .Unreachable).after_unconditional_branch

/-- `Builder::visit_br_op`: a branch to the `Func` frame sets a `Return`
terminator directly on the current block; any other target frame yields a
`Br` to that frame's branch target block. -/
def Builder.visit_br_op (b : Builder) (relative_depth : Nat) : Builder :=
  let (branch_params, b) := b.pop_branch_params relative_depth
  let target_frame := b.frame_at relative_depth
  let b :=
    if target_frame.kind.is_func then
      b.set_terminator b.current_block (.Return branch_params)
    else
      b.set_terminator b.current_block
        (.Br target_frame.kind.branch_target_block branch_params)
  b.after_unconditional_branch

/-- `Builder::visit_return_op`: behaves as `br` to the outermost frame. -/
def Builder.visit_return_op (b : Builder) : Builder :=
  b.visit_br_op (b.frames.length - 1)

/-- `Builder::visit_br_if_op`: pop the condition and branch arguments, sync
residual operands, allocate a fresh fall-through block typed from the
branch arguments, and terminate the current block with
`BrIf(cond, target, fallthrough, args)`. -/
def Builder.visit_br_if_op (b : Builder) (relative_depth : Nat) : Builder :=
  let (condition, b) := b.pop
  let (branch_params, b) := b.pop_branch_params relative_depth
  let branch_params_len := branch_params.length
  let b := b.sync_stack_before_statement
  let target_frame := b.frame_at relative_depth
  let target_block :=
    if target_frame.kind.is_func then b.return_block
    else target_frame.kind.branch_target_block
  let in_block := (lookupB b.blocks b.current_block).getD ⟨[], [], .Unknown⟩
  let branch_param_types :=
    (branch_params.map (fun x => b.expr_type x in_block)).flatten
  let (fallthrough_block, b) := b.add_block ⟨branch_param_types, [], .Unknown⟩
  let b := b.set_terminator b.current_block
    (.BrIf condition target_block fallthrough_block branch_params)
  let b := { b with current_block := fallthrough_block }
  b.push_block_params branch_params_len

/-- The outcome of visiting one operator.  `ok` is normal progress;
`errored` is the `anyhow::Result` failure channel (the single error channel
of the program, produced by validator rejections, none of which arise on
the validated streams used below); `panicked` models a Rust panic such as
the `unimplemented!()` on multi-result calls — a process abort that does
not travel through the error channel. -/
inductive VOut where
  | ok (b : Builder)
  | errored (msg : String)
  | panicked (msg : String)
deriving Repr

/-- `Builder::expr_op` from `src/ir/decode.rs` (embedded subset: constants
and `local.get`; the remaining pure operators push one expression node
exactly like these and none of the claims depends on them). -/
def Builder.expr_op (b : Builder) : Option Int → Option Nat → Builder
  | some value, _ => { b with stack := b.stack ++ [.I32Const value] }
  | none, some local_index => { b with stack := b.stack ++ [.GetLocal local_index] }
  | none, none => b

/-- The embedded operator alphabet (the subset of `wasm::Operator` the
claims exercise).  Operators absent here (`br_table`, stores, loads,
arithmetic beyond `i32.const`, …) are handled by the same
`visit_statement_op`/`expr_op` scheme in the source. -/
inductive Op where
  | Block (blockty : BlockType)
  | Loop (blockty : BlockType)
  | If (blockty : BlockType)
  | Else
  | End
  | Unreachable
  | Return
  | Br (relative_depth : Nat)
  | BrIf (relative_depth : Nat)
  | Nop
  | Drop
  | LocalGet (local_index : Nat)
  | LocalSet (local_index : Nat)
  | LocalTee (local_index : Nat)
  | I32Const (value : Int)
  | Call (function_index : Nat)
  | CallIndirect (type_index table_index : Nat)
deriving Repr

/-- `Builder::visit_statement_op` from `src/ir/decode.rs`.  Statements
(`nop`, `drop`, `local.set`, `local.tee`, zero-result calls) run
`sync_stack_before_statement` and are appended to the current block.
Calls with one result push a `Call`/`CallIndirect` expression and return
early (no sync).  Calls with two or more results hit `unimplemented!()`
in the source — a panic, modelled by `VOut.panicked`. -/
def Builder.visit_statement_op (b : Builder) (op : Op) : VOut :=
  -- the source first asserts `!self.frame_unreachable(0)`; guarded by `visit_op`
  let push_statement := fun (b : Builder) (statement : Statement) =>
    let b := b.sync_stack_before_statement
    let blocks := updateB b.blocks b.current_block
      (fun blk => { blk with statements := blk.statements ++ [statement] })
    VOut.ok { b with blocks := blocks }
  match op with
  | .Nop => push_statement b .Nop
  | .Drop =>
    let (value, b) := b.pop
    push_statement b (.Drop value)
  | .LocalSet local_index =>
    let (value, b) := b.pop
    push_statement b (.LocalSet local_index value)
  | .LocalTee local_index =>
    let (value, b) := b.pop
    let b := { b with stack := b.stack ++ [.GetLocal local_index] }
    push_statement b (.LocalSet local_index value)
  | .Call function_index =>
    let func_type := b.type_of_func function_index
    let result_count := func_type.results.length
    let (params, b) := b.popn func_type.params.length
    if result_count = 0 then
      push_statement b (.Call function_index params)
    else if result_count = 1 then
      VOut.ok { b with stack := b.stack ++ [.Call function_index params] }
    else
      VOut.panicked "not implemented"
  | .CallIndirect type_index table_index =>
    let (callee_index, b) := b.pop
    let func_type := b.func_type_at type_index
    let result_count := func_type.results.length
    let (params, b) := b.popn func_type.params.length
    if result_count = 0 then
      push_statement b (.CallIndirect type_index table_index callee_index params)
    else if result_count = 1 then
      VOut.ok { b with stack :=
        b.stack ++ [.CallIndirect type_index table_index callee_index params] }
    else
      VOut.panicked "not implemented"
  | .I32Const value => VOut.ok (b.expr_op (some value) none)
  | .LocalGet local_index => VOut.ok (b.expr_op none (some local_index))
  | _ => VOut.ok b  -- control operators never reach `visit_statement_op`

/-- `Builder::visit_op` from `src/ir/decode.rs`: dispatch after validation.
Structured-control operators (`block`/`loop`/`if`/`else`/`end`) run even in
unreachable code; branch and value operators are skipped when the current
frame is unreachable. -/
def Builder.visit_op (b : Builder) (op : Op) : VOut :=
  match op with
  | .Block blockty => .ok (b.visit_block_op blockty)
  | .Loop blockty => .ok (b.visit_loop_op blockty)
  | .If blockty => .ok (b.visit_if_op blockty)
  | .Else => .ok b.visit_else_op
  | .End => .ok b.visit_end_op
  | .Unreachable =>
    if b.frame_unreachable 0 then .ok b else .ok b.visit_unreachable_op
  | .Return =>
    if b.frame_unreachable 0 then .ok b else .ok b.visit_return_op
  | .Br relative_depth =>
    if b.frame_unreachable 0 then .ok b else .ok (b.visit_br_op relative_depth)
  | .BrIf relative_depth =>
    if b.frame_unreachable 0 then .ok b else .ok (b.visit_br_if_op relative_depth)
  | _ =>
    if b.frame_unreachable 0 then .ok b else b.visit_statement_op op

/-- `Builder::finish` from `src/ir/decode.rs`. -/
def Builder.finish (b : Builder) : Func :=
  { index := b.func_index
    ty := b.type_of_func b.func_index
    locals := b.locals
    blocks := b.blocks
    entry_block := b.start_block }

/-- The decode outcome: the decoded `Func`, the error channel, or a panic. -/
inductive DecodeOut where
  | ok (f : Func)
  | errored (msg : String)
  | panicked (msg : String)
deriving Repr

/-- The operator loop of `Func::decode` from `src/ir/decode.rs`, applied to
an already-validated operator stream (locals already declared). -/
def decode_ops : Builder → List Op → DecodeOut
  | b, [] => .ok b.finish
  | b, op :: rest =>
    match b.visit_op op with
    | .ok b => decode_ops b rest
    | .errored msg => .errored msg
    | .panicked msg => .panicked msg

/-- `Func::decode`: build the `Builder` and run the operator loop. -/
def Func.decode (env : ModuleEnv) (func_index : Nat) (locals : List LocalDecl)
    (ops : List Op) : DecodeOut :=
  decode_ops (Builder.new env func_index locals) ops

/-! ## Derived observers used by the theorems -/

mutual

/-- Whether an expression tree contains the `Bottom` variant. -/
def exprHasBottom : Expression → Bool
  | .I32Const _ => false
  | .I64Const _ => false
  | .F32Const _ => false
  | .F64Const _ => false
  | .BlockParam _ => false
  | .Unary _ e => exprHasBottom e
  | .Binary _ l r => exprHasBottom l || exprHasBottom r
  | .Call _ ps => exprsHaveBottom ps
  | .CallIndirect _ _ callee ps => exprHasBottom callee || exprsHaveBottom ps
  | .GetLocal _ => false
  | .GetLocalN _ => false
  | .GetGlobal _ => false
  | .Select c t f => exprHasBottom c || exprHasBottom t || exprHasBottom f
  | .MemoryLoad _ _ i => exprHasBottom i
  | .MemorySize => false
  | .MemoryGrow v => exprHasBottom v
  | .Bottom => true

/-- `exprHasBottom` over a list. -/
def exprsHaveBottom : List Expression → Bool
  | [] => false
  | e :: rest => exprHasBottom e || exprsHaveBottom rest

end

mutual

/-- Whether a statement (including nested `If` bodies) contains `Bottom`. -/
def stmtHasBottom : Statement → Bool
  | .Nop => false
  | .Drop e => exprHasBottom e
  | .LocalSet _ e => exprHasBottom e
  | .LocalSetN _ e => exprHasBottom e
  | .GlobalSet _ e => exprHasBottom e
  | .MemoryStore _ i v => exprHasBottom i || exprHasBottom v
  | .If c t f => exprHasBottom c || stmtsHaveBottom t || stmtsHaveBottom f
  | .Call _ ps => exprsHaveBottom ps
  | .CallIndirect _ _ callee ps => exprHasBottom callee || exprsHaveBottom ps

/-- `stmtHasBottom` over a list. -/
def stmtsHaveBottom : List Statement → Bool
  | [] => false
  | s :: rest => stmtHasBottom s || stmtsHaveBottom rest

end

/-- Whether a terminator's expressions contain `Bottom`. -/
def termHasBottom : Terminator → Bool
  | .Unknown => false
  | .Unreachable => false
  | .Return vs => exprsHaveBottom vs
  | .Br _ vs => exprsHaveBottom vs
  | .BrIf c _ _ vs => exprHasBottom c || exprsHaveBottom vs
  | .BrTable _ _ vs => exprsHaveBottom vs

/-- Whether any retained block of a function contains `Bottom` in any
statement or terminator expression tree. -/
def funcHasBottom (f : Func) : Bool :=
  f.blocks.any (fun e =>
    stmtsHaveBottom e.2.statements || termHasBottom e.2.terminator)

/-- Whether every `BrIf` terminator of the function has two distinct
successor targets. -/
def allBrIfTargetsDistinct (f : Func) : Bool :=
  f.blocks.all (fun e =>
    match e.2.terminator with
    | .BrIf _ t u _ => t ≠ u
    | _ => true)

/-- Whether every terminator target of every block is a key of the block
map (graph closedness). -/
def targetsClosed (f : Func) : Prop :=
  ∀ e ∈ f.blocks, ∀ t ∈ Block.successors e.2, t ∈ keysOf f.blocks

instance (f : Func) : Decidable (targetsClosed f) :=
  inferInstanceAs (Decidable (∀ e ∈ f.blocks, ∀ t ∈ Block.successors e.2,
    t ∈ keysOf f.blocks))


/-- Project the decoded function out of a decode outcome. -/
def DecodeOut.toFunc : DecodeOut → Option Func
  | .ok f => some f
  | _ => none

/-- The decoded function, or an empty placeholder on failure.  Every
theorem below that uses this additionally proves (by evaluation) that the
decode outcome really was `ok`, so the placeholder is never what is being
talked about. -/
def decodedOrEmpty (d : DecodeOut) : Func :=
  match d with
  | .ok f => f
  | _ => ⟨0, ⟨[], []⟩, [], [], 0⟩

/-! ### Concrete validated input fixtures

Each fixture is the operator stream of a small WebAssembly function in the
supported subset (MVP), together with the validator resources snapshot the
module gives it.  The corresponding text format is noted at each fixture. -/

/-- Resources for a module whose function 0 has type `() → ()`. -/
def envUnitFn : ModuleEnv := ⟨[⟨[], []⟩], [0], []⟩

/-- Resources for a module whose function 0 has type `(i32) → ()`. -/
def envParamI32 : ModuleEnv := ⟨[⟨[.I32], []⟩], [0], []⟩

/-- Resources for a module whose function 0 has type `(i32) → (i32)`. -/
def envIdentityI32 : ModuleEnv := ⟨[⟨[.I32], [.I32]⟩], [0], []⟩

/-- Resources for a module with function 0 of type `() → ()` and a callee,
function 1, of type `() → (i32)` (single result). -/
def envSingleResultCallee : ModuleEnv := ⟨[⟨[], []⟩, ⟨[], [.I32]⟩], [0, 1], []⟩

/-- Resources for a module with function 0 of type `() → ()` and a callee,
function 1, of type `() → (i32, i32)` (two results; the multi-value
proposal, outside the supported subset). -/
def envTwoResultCallee : ModuleEnv := ⟨[⟨[], []⟩, ⟨[], [.I32, .I32]⟩], [0, 1], []⟩

/-- `(func (param i32) (block (br_if 0 (local.get 0))))`. -/
def opsBrIfJoin : List Op :=
  [.Block .Empty, .LocalGet 0, .BrIf 0, .End, .End]

/-- The decode of `opsBrIfJoin`. -/
def funcBrIfJoin : Func := decodedOrEmpty (Func.decode envParamI32 0 [] opsBrIfJoin)

/-- `(func (param i32) (block (block (br_if 0 (local.get 0))
(br_if 1 (local.get 0)))))`: two nested empty blocks with a `br_if` to the
inner and to the outer label. -/
def opsNestedBrIf : List Op :=
  [.Block .Empty, .Block .Empty, .LocalGet 0, .BrIf 0, .LocalGet 0, .BrIf 1,
   .End, .End, .End]

/-- The decode of `opsNestedBrIf`. -/
def funcNestedBrIf : Func := decodedOrEmpty (Func.decode envParamI32 0 [] opsNestedBrIf)

/-- `(func (call $f1) nop nop drop)` with `$f1 : () → (i32)`: a
single-result call whose value crosses two statement boundaries. -/
def opsCallTwoBoundaries : List Op := [.Call 1, .Nop, .Nop, .Drop, .End]

/-- The decode of `opsCallTwoBoundaries`. -/
def funcCallTwoBoundaries : Func :=
  decodedOrEmpty (Func.decode envSingleResultCallee 0 [] opsCallTwoBoundaries)

/-- `(func return (if (then)))`: an `if` in code made unreachable by
`return`. -/
def opsUnreachableIf : List Op := [.Return, .If .Empty, .End, .End]

/-- The decode of `opsUnreachableIf`. -/
def funcUnreachableIf : Func :=
  decodedOrEmpty (Func.decode envUnitFn 0 [] opsUnreachableIf)

/-- `(func (param i32) (result i32) local.get 0)`. -/
def funcIdentity : Func :=
  decodedOrEmpty (Func.decode envIdentityI32 0 [] [.LocalGet 0, .End])

/-- A five-block function in decoder shape: `A = 0` ends in
`BrIf(arg0, B = 1, C = 2, [])`, `B` and `C` hold one statement each and
both branch to `D = 3`, and an extra block `E = 4` also branches to `D`.
`D`'s predecessors are therefore `{B, C, E}` with `E ∉ {B, C}`. -/
def funcDExtraPred : Func :=
  ⟨0, ⟨[.I32], []⟩, [⟨.I32, "arg0"⟩],
   [(0, ⟨[], [], .BrIf (.GetLocal 0) 1 2 []⟩),
    (1, ⟨[], [.Nop], .Br 3 []⟩),
    (2, ⟨[], [.Nop], .Br 3 []⟩),
    (3, ⟨[], [], .Return []⟩),
    (4, ⟨[], [], .Br 3 []⟩)],
   0⟩

/-- Two terminators of the same variant whose condition, branch-argument
expressions (and, for `BrTable`, number of table entries) agree — i.e. they
can differ only in their target `BlockIndex` fields. -/
def sameShapeTerminator : Terminator → Terminator → Prop
  | .Unknown, .Unknown => True
  | .Unreachable, .Unreachable => True
  | .Return vs, .Return ws => vs = ws
  | .Br _ vs, .Br _ ws => vs = ws
  | .BrIf c _ _ vs, .BrIf d _ _ ws => c = d ∧ vs = ws
  | .BrTable ts _ vs, .BrTable us _ ws => ts.length = us.length ∧ vs = ws
  | _, _ => False

/-- The builder state reached inside `visit_br_if_op` after popping the
condition and branch arguments and syncing residual operands. -/
def brif_pre (b : Builder) (d : Nat) : Builder :=
  (((b.pop).2.pop_branch_params d).2).sync_stack_before_statement

/-- The condition popped by `visit_br_if_op`. -/
def brif_cond (b : Builder) : Expression := (b.pop).1

/-- The branch arguments popped by `visit_br_if_op`. -/
def brif_args (b : Builder) (d : Nat) : List Expression :=
  ((b.pop).2.pop_branch_params d).1

/-- The taken-branch target computed by `visit_br_if_op`. -/
def brif_target (b : Builder) (d : Nat) : Nat :=
  if ((brif_pre b d).frame_at d).kind.is_func then (brif_pre b d).return_block
  else ((brif_pre b d).frame_at d).kind.branch_target_block

/-- The fresh fall-through block allocated by `visit_br_if_op`. -/
def brif_node (b : Builder) (d : Nat) : Block :=
  ⟨((brif_args b d).map (fun x => (brif_pre b d).expr_type x
      ((lookupB (brif_pre b d).blocks (brif_pre b d).current_block).getD
        ⟨[], [], .Unknown⟩))).flatten, [], .Unknown⟩

/-- A terminator that is a `BrIf` with two distinct successor targets. -/
def brIfDistinctTargets : Terminator → Prop
  | .BrIf _ t u _ => t ≠ u
  | _ => False

/-- The builder state reached inside `visit_br_op` after popping the branch
arguments. -/
def br_pre (b : Builder) (d : Nat) : Builder := (b.pop_branch_params d).2

/-- The branch arguments popped by `visit_br_op`. -/
def br_args (b : Builder) (d : Nat) : List Expression := (b.pop_branch_params d).1

/-- A terminator that is a `BrIf` whose taken-branch target is `r`. -/
def brIfTrueTargetEq (t : Terminator) (r : Nat) : Prop :=
  match t with
  | .BrIf _ tt _ _ => tt = r
  | _ => False

/-- The decoder state just before the `br_if 0` of `opsBrIfJoin`: inside
the block (current block 2, join block 3), condition on the stack. -/
def builderBrIf : Builder :=
  { env := envParamI32
    func_index := 0
    func_type := ⟨[.I32], []⟩
    locals := [⟨.I32, "arg0"⟩]
    temp_count := 0
    frames := [⟨.Func, .FuncType 0, false, 0⟩, ⟨.Block 3, .Empty, false, 0⟩]
    stack := [.GetLocal 0]
    blocks := [(0, ⟨[], [], .Br 2 []⟩), (1, ⟨[], [], .Return []⟩),
               (2, ⟨[], [], .Unknown⟩), (3, ⟨[], [], .Unknown⟩)]
    start_block := 0
    current_block := 2
    return_block := 1
    next_block_index := 4 }

/-- The decoder state of the identity function just before its `return`-like
end: one operand on the stack, single `Func` frame. -/
def builderReturn : Builder :=
  { Builder.new envIdentityI32 0 [] with stack := [.GetLocal 0] }

/-- A decoder state with one pending single-result call on the operand
stack, inside the sole `Func` frame. -/
def builderOneCall : Builder :=
  { Builder.new envSingleResultCallee 0 [] with stack := [.Call 1 []] }

/-- A three-block function whose blocks are all reachable from the entry:
`0` ends in `BrIf(arg0, 2, 1)`, `1` forwards to `2`, `2` returns. -/
def funcSmallRPO : Func :=
  ⟨0, ⟨[.I32], []⟩, [⟨.I32, "arg0"⟩],
   [(0, ⟨[], [], .BrIf (.GetLocal 0) 2 1 []⟩),
    (1, ⟨[], [.Nop], .Br 2 []⟩),
    (2, ⟨[], [], .Return []⟩)],
   0⟩

/-! ## Claim theorems -/

/-- C1: the claim says that after jump threading every terminator target is
a non-trivial block, obtained by following the whole chain of trivial
forwarding blocks (with self-mapped trivial cycles as the only exception).
The code builds the mapping in a single pass over the map, sending each
trivial block to its immediate `Br` target without following the chain, so
a chain of two trivial blocks leaves a trivial target behind.  On the
decoded function of `opsNestedBrIf`, the structurer leaves the trivial
chain `7 → 5 → 3` (block 3 is a non-trivial `Return` block); after
`jump_threading`, block 6's false target is block 5, which is still a
trivial forwarding block and not part of a trivial cycle (it forwards to
3 ≠ 5).  This is the evaluation of the code at the failing input of the
C1 entry. -/
theorem C1_jump_threading_follows_one_step_only :
    (Func.decode envParamI32 0 [] opsNestedBrIf).toFunc = some funcNestedBrIf ∧
    (lookupB funcNestedBrIf.reconstruct_control_flow.blocks 6).map Block.terminator =
      some (.BrIf (.GetLocal 0) 3 7 []) ∧
    ((lookupB funcNestedBrIf.reconstruct_control_flow.blocks 7).bind
      Block.is_trivial_block) = some 5 ∧
    ((lookupB funcNestedBrIf.reconstruct_control_flow.blocks 5).bind
      Block.is_trivial_block) = some 3 ∧
    (lookupB funcNestedBrIf.reconstruct_control_flow.jump_threading.blocks 6).map
      Block.terminator = some (.BrIf (.GetLocal 0) 3 5 []) ∧
    ((lookupB funcNestedBrIf.reconstruct_control_flow.jump_threading.blocks 5).bind
      Block.is_trivial_block) = some 3 ∧
    ((lookupB funcNestedBrIf.reconstruct_control_flow.jump_threading.blocks 3).bind
      Block.is_trivial_block) = none :=
  ⟨rfl, rfl, rfl, rfl, rfl, rfl, rfl⟩

/-- C2: the claim says the if-diamond reduction fires only when (among the
other conditions) every predecessor of the common successor `D` is `B` or
`C`.  In the source that check (`passes.rs` lines 125–130) is a loop whose
`continue` binds to the loop itself, so it never skips the rewrite; on
`funcDExtraPred`, where `D = 3` has the extra predecessor `E = 4`, the
rewrite fires anyway, contradicting both the claim and the comment above
the function (`D has only B or C as predecessors`).  This is the
evaluation of the code at the failing input of the C2 entry. -/
theorem C2_merge_if_ignores_extra_predecessor_of_d :
    preds_of funcDExtraPred.blocks 3 = [1, 2, 4] ∧
    (funcDExtraPred.merge_if_blocks).2 = true ∧
    lookupB (funcDExtraPred.merge_if_blocks).1.blocks 0 =
      some ⟨[], [.If (.GetLocal 0) [.Nop] [.Nop]], .Br 3 []⟩ :=
  ⟨rfl, rfl, rfl⟩

/-- C3 counterexample: a call to a single-result function whose value
crosses two statement boundaries is materialized twice, not exactly once:
two fresh locals `temp0`, `temp1` are minted, two `LocalSetN` statements
are emitted (the second initializes `temp1` from `temp0`, not from the
original call expression), and the final use reads `temp1`, not the first
temp.  This refutes the claim's `exactly once` (one fresh local, one
`LocalSetN`, all uses reading that same temp). -/
theorem C3_counterexample_two_boundaries_two_temps :
    (Func.decode envSingleResultCallee 0 [] opsCallTwoBoundaries).toFunc =
      some funcCallTwoBoundaries ∧
    funcCallTwoBoundaries.locals = [⟨.I32, "temp0"⟩, ⟨.I32, "temp1"⟩] ∧
    (lookupB funcCallTwoBoundaries.blocks 0).map Block.statements =
      some [.LocalSetN [0] (.Call 1 []), .Nop,
            .LocalSetN [1] (.GetLocalN [0]), .Nop,
            .Drop (.GetLocalN [1])] :=
  ⟨rfl, rfl, rfl⟩

/-- C4: the claim (spec property 6) says running the full pipeline twice is
bit-identical to running it once.  On the decoded function of
`opsNestedBrIf` a chain of two trivial forwarding blocks survives the
structurer; jump threading follows only one step of it, so the first run
keeps a trivial block (key 2 of the renumbered output) that the second run
then eliminates: one run yields the four keys `[0, 1, 2, 3]`, two runs
yield `[0, 1, 2]`.  This is the evaluation of the code at the failing
input of the C4 entry. -/
theorem C4_optimize_not_idempotent :
    (Func.decode envParamI32 0 [] opsNestedBrIf).toFunc = some funcNestedBrIf ∧
    keysOf funcNestedBrIf.optimize.blocks = [0, 1, 2, 3] ∧
    keysOf funcNestedBrIf.optimize.optimize.blocks = [0, 1, 2] :=
  ⟨rfl, rfl, rfl⟩

/-- C5: the claim (spec property 4, and the comment on `Expression::Bottom`
in `src/ir/mod.rs`: `Should be eliminated by DCE`) says no expression tree
contains `Bottom` after dead-block elimination.  Decoding
`(func return (if (then)))` makes `visit_if_op` run in unreachable code
(structured operators are unguarded in `visit_op`); it pops `Bottom` as the
condition and overwrites the reachable entry block's `Return` terminator
with `BrIf(Bottom, …)`.  The structurer then folds the diamond into an
`If(Bottom, [], [])` statement in the entry block, which every later pass
(including both dead-block eliminations) retains: the fully optimized
function still contains `Bottom`.  This is the evaluation of the code at
the failing input of the C5 entry. -/
theorem C5_bottom_survives_optimization :
    (Func.decode envUnitFn 0 [] opsUnreachableIf).toFunc = some funcUnreachableIf ∧
    (lookupB funcUnreachableIf.blocks 0).map Block.terminator =
      some (.BrIf .Bottom 2 3 []) ∧
    (lookupB funcUnreachableIf.optimize.blocks 0).map Block.statements =
      some [.If .Bottom [] []] ∧
    funcHasBottom funcUnreachableIf.optimize = true :=
  ⟨rfl, rfl, rfl, rfl⟩

/-- C6 counterexample: the decoded function of `opsBrIfJoin` has pairwise
distinct `BrIf` successors (as does its structured form), but
`jump_threading` rewrites the fall-through target (a trivial block
forwarding to the join) to the join itself, producing
`BrIf(arg0, 3, 3, [])` — the two successor targets of a `BrIf` become
equal, refuting the claim that distinctness is preserved through every
optimization pass. -/
theorem C6_counterexample_jump_threading_merges_brif_targets :
    (Func.decode envParamI32 0 [] opsBrIfJoin).toFunc = some funcBrIfJoin ∧
    allBrIfTargetsDistinct funcBrIfJoin = true ∧
    allBrIfTargetsDistinct funcBrIfJoin.reconstruct_control_flow = true ∧
    (lookupB funcBrIfJoin.reconstruct_control_flow.jump_threading.blocks 0).map
      Block.terminator = some (.BrIf (.GetLocal 0) 3 3 []) ∧
    allBrIfTargetsDistinct funcBrIfJoin.reconstruct_control_flow.jump_threading =
      false :=
  ⟨rfl, rfl, rfl, rfl, rfl⟩

/-- C7 counterexample: decoding `(func (param i32) (result i32)
local.get 0)` puts a `Return [GetLocal 0]` terminator directly on the
entry block (`visit_end_op`, `Func` arm), so the dedicated return block 1
does not hold the sole `Return` terminator — the block map contains two
`Return` terminators and the function-level return does not branch to
block 1. -/
theorem C7_counterexample_direct_return_terminator :
    (Func.decode envIdentityI32 0 [] [.LocalGet 0, .End]).toFunc =
      some funcIdentity ∧
    (lookupB funcIdentity.blocks 0).map Block.terminator =
      some (.Return [.GetLocal 0]) ∧
    funcIdentity.blocks.countP
      (fun e => match e.2.terminator with | .Return _ => true | _ => false) = 2 :=
  ⟨rfl, rfl, rfl⟩

/-- C9 counterexample: a `call` to a function whose type has two results is
refused by the Rust panic `unimplemented!()` (`visit_statement_op` in
`src/ir/decode.rs`), modelled by the `panicked` outcome — not by the
`errored` outcome that models the program's single `anyhow::Result`
failure channel. -/
theorem C9_counterexample_multi_result_call_panics :
    Func.decode envTwoResultCallee 0 [] [.Call 1, .End] =
      .panicked "not implemented" :=
  rfl

/-! ## Helper lemmas -/

theorem lookupB_updateB_self (m : List (Nat × Block)) (k : Nat) (f : Block → Block) :
    lookupB (updateB m k f) k = (lookupB m k).map f := by
  induction m with
  | nil => rfl
  | cons e tl ih =>
    by_cases h : e.1 = k
    · simp [updateB, lookupB, h]
    · simpa [updateB, lookupB, h] using ih

theorem lookupB_updateB_ne (m : List (Nat × Block)) (k k' : Nat) (f : Block → Block)
    (h : k' ≠ k) : lookupB (updateB m k f) k' = lookupB m k' := by
  induction m with
  | nil => rfl
  | cons e tl ih =>
    by_cases he : e.1 = k
    · have hkk : ¬(k = k') := fun hk => h hk.symm
      simpa [updateB, lookupB, he, hkk] using ih
    · by_cases he' : e.1 = k'
      · simp [updateB, lookupB, he, he', h]
      · simpa [updateB, lookupB, he, he'] using ih

theorem lookupB_map_values (m : List (Nat × Block)) (g : Block → Block) (k : Nat) :
    lookupB (m.map (fun e => (e.1, g e.2))) k = (lookupB m k).map g := by
  induction m with
  | nil => rfl
  | cons e tl ih =>
    by_cases h : e.1 = k
    · simp [lookupB, h]
    · simpa [lookupB, h] using ih

theorem keysOf_map_values (m : List (Nat × Block)) (g : Block → Block) :
    keysOf (m.map (fun e => (e.1, g e.2))) = keysOf m := by
  induction m with
  | nil => rfl
  | cons e tl ih => simp [keysOf]


/-- C10: jump threading mutates only the target `BlockIndex` fields inside
terminators.  For every block of a graph-closed function: the key set of
the block map is unchanged (trivial blocks stay in place for DCE), the
entry pointer is unchanged, and each block keeps its parameter list, its
statement list, and a terminator of the same variant with the same
condition and branch-argument expressions. -/
theorem C10_jump_threading_frame_effect (f : Func) (hclosed : targetsClosed f) :
    keysOf f.jump_threading.blocks = keysOf f.blocks ∧
    f.jump_threading.entry_block = f.entry_block ∧
    ∀ k b b', lookupB f.blocks k = some b →
      lookupB f.jump_threading.blocks k = some b' →
      b'.params = b.params ∧ b'.statements = b.statements ∧
        sameShapeTerminator b.terminator b'.terminator := by
  refine ⟨keysOf_map_values f.blocks
    (fun x => x.remap_block_indices (trivial_blocks_map f.blocks)), rfl, ?_⟩
  intro k b b' hb hb'
  have hmap : lookupB f.jump_threading.blocks k =
      (lookupB f.blocks k).map
        (fun x => x.remap_block_indices (trivial_blocks_map f.blocks)) :=
    lookupB_map_values f.blocks
      (fun x => x.remap_block_indices (trivial_blocks_map f.blocks)) k
  rw [hb] at hmap
  rw [hmap] at hb'
  simp only [Option.map_some'] at hb'
  cases hb'
  refine ⟨rfl, rfl, ?_⟩
  cases ht : b.terminator <;>
    simp [Block.remap_block_indices, Terminator.remap_block_indices,
      sameShapeTerminator, ht]

/-- Witness for C10 at a concrete graph-closed function. -/
theorem C10_jump_threading_frame_effect_witness :
    targetsClosed funcDExtraPred ∧
    (keysOf funcDExtraPred.jump_threading.blocks = keysOf funcDExtraPred.blocks ∧
     funcDExtraPred.jump_threading.entry_block = funcDExtraPred.entry_block ∧
     ∀ k b b', lookupB funcDExtraPred.blocks k = some b →
       lookupB funcDExtraPred.jump_threading.blocks k = some b' →
       b'.params = b.params ∧ b'.statements = b.statements ∧
         sameShapeTerminator b.terminator b'.terminator) :=
  ⟨by decide, C10_jump_threading_frame_effect funcDExtraPred (by decide)⟩

/-- C9 amended: a `call` or `call_indirect` whose callee type has two or
more results is refused by `unimplemented!()` — a Rust panic (process
abort), not an error returned through the single `anyhow::Result` failure
channel. -/
theorem C9_amended_multi_result_calls_panic (b : Builder) (fi ti tbl : Nat)
    (h1 : 2 ≤ (b.type_of_func fi).results.length)
    (h2 : 2 ≤ (b.func_type_at ti).results.length) :
    b.visit_statement_op (.Call fi) = .panicked "not implemented" ∧
    b.visit_statement_op (.CallIndirect ti tbl) = .panicked "not implemented" := by
  have henv : ∀ b' : Builder, (Builder.pop b').2.env = b'.env := by
    intro b'
    by_cases hlen : b'.stack.length ≤ (b'.frame_at 0).stack_height
    · simp [Builder.pop, hlen]
    · cases hc : b'.stack.getLast? <;> simp [Builder.pop, hlen, hc]
  constructor
  · rcases hpp : b.popn (b.type_of_func fi).params.length with ⟨ps, b2⟩
    simp only [Builder.visit_statement_op, hpp]
    rw [if_neg (by omega), if_neg (by omega)]
  · rcases hc : b.pop with ⟨ce, b1⟩
    have henv1 : b1.env = b.env := by rw [← henv b, hc]
    have hty : b1.func_type_at ti = b.func_type_at ti := by
      simp [Builder.func_type_at, henv1]
    rcases hpp : b1.popn (b1.func_type_at ti).params.length with ⟨ps, b2⟩
    simp only [Builder.visit_statement_op, hc, hpp]
    rw [if_neg (by rw [hty]; omega), if_neg (by rw [hty]; omega)]

/-- Witness for C9 at a concrete builder facing a two-result callee. -/
theorem C9_amended_multi_result_calls_panic_witness :
    (Builder.new envTwoResultCallee 0 []).visit_statement_op (.Call 1) =
      .panicked "not implemented" ∧
    (Builder.new envTwoResultCallee 0 []).visit_statement_op (.CallIndirect 1 0) =
      .panicked "not implemented" :=
  C9_amended_multi_result_calls_panic (Builder.new envTwoResultCallee 0 []) 1 1 0
    (by decide) (by decide)

/-- `Builder::pop` changes only the operand stack. -/
theorem pop_only_stack (b : Builder) :
    (b.pop).2 = { b with stack := (b.pop).2.stack } := by
  by_cases hlen : b.stack.length ≤ (b.frame_at 0).stack_height
  · simp [Builder.pop, hlen]
  · cases hc : b.stack.getLast? <;> simp [Builder.pop, hlen, hc]

/-- `Builder::popn` changes only the operand stack. -/
theorem popn_only_stack (b : Builder) (n : Nat) :
    (b.popn n).2 = { b with stack := (b.popn n).2.stack } := by
  have main : ∀ (l : List Nat) (acc : List Expression) (b : Builder),
      (l.foldl (fun (st : List Expression × Builder) _ =>
        let (e, b) := st.2.pop
        (e :: st.1, b)) (acc, b)).2 =
      { b with stack := ((l.foldl (fun (st : List Expression × Builder) _ =>
        let (e, b) := st.2.pop
        (e :: st.1, b)) (acc, b)).2).stack } := by
    intro l
    induction l with
    | nil => intro acc b; rfl
    | cons hd tl ih =>
      intro acc b
      simp only [List.foldl]
      rcases hp : b.pop with ⟨e, b2⟩
      have h2 : b2 = { b with stack := b2.stack } := by
        have h := pop_only_stack b
        rw [hp] at h
        exact h
      simp only [hp]
      rw [ih (e :: acc) b2, h2]
  unfold Builder.popn
  exact main (List.range n) [] b

/-- `Builder::pop_branch_params` changes only the operand stack. -/
theorem pop_branch_params_only_stack (b : Builder) (d : Nat) :
    (b.pop_branch_params d).2 = { b with stack := (b.pop_branch_params d).2.stack } := by
  unfold Builder.pop_branch_params
  exact popn_only_stack b _

/-- `Builder::sync_slot` changes only locals, the temp counter, the operand
stack and the block map. -/
theorem sync_slot_only (b : Builder) (i : Nat) :
    b.sync_slot i = { b with
      locals := (b.sync_slot i).locals,
      temp_count := (b.sync_slot i).temp_count,
      stack := (b.sync_slot i).stack,
      blocks := (b.sync_slot i).blocks } := by
  unfold Builder.sync_slot
  dsimp only
  split
  · rfl
  · rfl

/-- `Builder::sync_stack_before_statement` changes only locals, the temp
counter, the operand stack and the block map. -/
theorem sync_only (b : Builder) :
    b.sync_stack_before_statement = { b with
      locals := b.sync_stack_before_statement.locals,
      temp_count := b.sync_stack_before_statement.temp_count,
      stack := b.sync_stack_before_statement.stack,
      blocks := b.sync_stack_before_statement.blocks } := by
  have main : ∀ (l : List Nat) (b : Builder),
      l.foldl Builder.sync_slot b = { b with
        locals := (l.foldl Builder.sync_slot b).locals,
        temp_count := (l.foldl Builder.sync_slot b).temp_count,
        stack := (l.foldl Builder.sync_slot b).stack,
        blocks := (l.foldl Builder.sync_slot b).blocks } := by
    intro l
    induction l with
    | nil => intro b; rfl
    | cons hd tl ih =>
      intro b
      simp only [List.foldl]
      rw [ih (b.sync_slot hd)]
      rw [sync_slot_only b hd]
  unfold Builder.sync_stack_before_statement
  exact main _ b

/-- `Builder::add_block` changes only the block map and the fresh-index
counter. -/
theorem add_block_only (b : Builder) (node : Block) :
    (b.add_block node).2 = { b with
      blocks := insertB b.next_block_index node b.blocks,
      next_block_index := b.next_block_index + 1 } := rfl

/-- `Builder::frame_at` depends only on the frame stack. -/
theorem frame_at_congr (b1 b2 : Builder) (d : Nat) (h : b1.frames = b2.frames) :
    b1.frame_at d = b2.frame_at d := by
  simp [Builder.frame_at, h]

/-- Remapping a block's terminator maps each successor through the
mapping. -/
theorem remap_successors (b : Block) (m : List (Nat × Nat)) :
    (b.remap_block_indices m).successors = b.successors.map (map_get m) := by
  cases ht : b.terminator <;>
    simp [Block.remap_block_indices, Terminator.remap_block_indices,
      Block.successors, Terminator.successors, ht]

/-- If a trivial block forwards to `tgt`, then `tgt` is among its
successors. -/
theorem is_trivial_block_target_mem (b : Block) (tgt : Nat)
    (h : b.is_trivial_block = some tgt) : tgt ∈ b.successors := by
  unfold Block.is_trivial_block at h
  by_cases hc : b.params.isEmpty && b.statements.isEmpty
  · rw [if_pos hc] at h
    cases hterm : b.terminator <;> rw [hterm] at h
    all_goals first
      | cases h
      | (rename_i target values
         have h2 : (if values.isEmpty = true then some target else none) = some tgt := h
         by_cases hv : values.isEmpty
         · rw [if_pos hv] at h2
           cases h2
           simp [Block.successors, Terminator.successors, hterm]
         · rw [if_neg hv] at h2
           cases h2)
  · rw [if_neg hc] at h
    cases h

/-- Looking up a key of `m` in a value-mapped copy of `m` yields the mapped
first entry at that key. -/
theorem lookup_map_keyed (m : List (Nat × Block)) (g : Nat × Block → Nat) (s : Nat)
    (hmem : s ∈ keysOf m) :
    ∃ e, e ∈ m ∧ e.1 = s ∧
      List.lookup s (m.map (fun e => (e.1, g e))) = some (g e) := by
  induction m with
  | nil => cases hmem
  | cons e0 tl ih =>
    by_cases h : e0.1 = s
    · exact ⟨e0, List.mem_cons_self e0 tl, h, by simp [List.lookup, h]⟩
    · have hmem2 : s ∈ keysOf tl := by
        cases List.mem_cons.mp hmem with
        | inl hh => exact absurd hh.symm h
        | inr hh => exact hh
      obtain ⟨e1, he1, he1k, he1l⟩ := ih hmem2
      refine ⟨e1, List.mem_cons_of_mem e0 he1, he1k, ?_⟩
      have hbeq : (s == e0.1) = false := by
        simp only [beq_eq_false_iff_ne]
        exact fun hh => h hh.symm
      simp [List.lookup, hbeq, he1l]

/-- `map_get` through the jump-threading mapping sends keys of a
successor-closed block map back into the key set. -/
theorem map_get_trivial_mem (blocks : List (Nat × Block)) (s : Nat)
    (hmem : s ∈ keysOf blocks)
    (hsucc : ∀ e ∈ blocks, ∀ t ∈ Block.successors e.2, t ∈ keysOf blocks) :
    map_get (trivial_blocks_map blocks) s ∈ keysOf blocks := by
  obtain ⟨e, hemem, hekey, helookup⟩ :=
    lookup_map_keyed blocks (fun e => (e.2.is_trivial_block).getD e.1) s hmem
  unfold map_get trivial_blocks_map
  rw [helookup]
  simp only [Option.getD_some]
  cases htb : e.2.is_trivial_block with
  | none =>
    simp only [htb, Option.getD_none]
    rw [hekey] at *
    exact hmem
  | some tgt =>
    simp only [htb, Option.getD_some]
    exact hsucc e hemem tgt (is_trivial_block_target_mem e.2 tgt htb)


/-- Characterization of the block map produced by `visit_br_if_op`: the
fresh fall-through block is inserted at the next index and the old current
block is terminated with `BrIf(cond, target, fallthrough, args)`. -/
theorem visit_br_if_op_blocks (b : Builder) (d : Nat) :
    (b.visit_br_if_op d).blocks =
      updateB
        (insertB (brif_pre b d).next_block_index (brif_node b d) (brif_pre b d).blocks)
        (brif_pre b d).current_block
        (fun blk => { blk with terminator := (Terminator.BrIf (brif_cond b)
            (brif_target b d) (brif_pre b d).next_block_index (brif_args b d)) }) :=
  rfl

/-- The state inside `visit_br_if_op` keeps the current block, the fresh
index counter, the return block and the frame stack of the entry state. -/
theorem brif_pre_fields (b : Builder) (d : Nat) :
    (brif_pre b d).current_block = b.current_block ∧
    (brif_pre b d).next_block_index = b.next_block_index ∧
    (brif_pre b d).return_block = b.return_block ∧
    (brif_pre b d).frames = b.frames := by
  unfold brif_pre
  rw [sync_only (((b.pop).2).pop_branch_params d).2]
  dsimp only
  rw [pop_branch_params_only_stack (b.pop).2 d]
  dsimp only
  rw [pop_only_stack b]
  exact ⟨rfl, rfl, rfl, rfl⟩

/-- The taken-branch target of `visit_br_if_op` equals
`Builder::branch_target_block` of the entry state. -/
theorem brif_target_eq (b : Builder) (d : Nat) :
    brif_target b d = b.branch_target_block d := by
  unfold brif_target Builder.branch_target_block
  rw [frame_at_congr (brif_pre b d) b d (brif_pre_fields b d).2.2.2,
    (brif_pre_fields b d).2.2.1]

/-- `updateB` never changes the key list of the block map. -/
theorem keysOf_updateB (m : List (Nat × Block)) (k : Nat) (f : Block → Block) :
    keysOf (updateB m k f) = keysOf m := by
  unfold updateB keysOf
  induction m with
  | nil => rfl
  | cons e tl ih =>
    simp only [List.map]
    rw [ih]
    by_cases h : e.1 = k
    · simp [h]
    · simp [h]

/-- The inserted key and every key of the map are keys after `insertB`. -/
theorem mem_keysOf_insertB (k : Nat) (v : Block) (m : List (Nat × Block)) (j : Nat) :
    j = k ∨ j ∈ keysOf m → j ∈ keysOf (insertB k v m) := by
  induction m with
  | nil =>
    intro hj
    rcases hj with h | h
    · simp [insertB, keysOf, h]
    · simp [keysOf] at h
  | cons e tl ih =>
    obtain ⟨a, bb⟩ := e
    intro hj
    simp only [keysOf, List.map, List.mem_cons] at hj
    simp only [insertB]
    by_cases h1 : k < a
    · rw [if_pos h1]
      simp only [keysOf, List.map, List.mem_cons]
      rcases hj with h | h | h
      · exact Or.inl h
      · exact Or.inr (Or.inl h)
      · exact Or.inr (Or.inr h)
    · rw [if_neg h1]
      by_cases h2 : k = a
      · rw [if_pos h2]
        simp only [keysOf, List.map, List.mem_cons]
        rcases hj with h | h | h
        · exact Or.inl h
        · exact Or.inl (by omega)
        · exact Or.inr h
      · rw [if_neg h2]
        simp only [keysOf, List.map, List.mem_cons]
        rcases hj with h | h | h
        · exact Or.inr (ih (Or.inl h))
        · exact Or.inl h
        · exact Or.inr (ih (Or.inr h))

/-- `Builder::sync_slot` never changes the key list of the block map. -/
theorem keysOf_sync_slot (b : Builder) (i : Nat) :
    keysOf (b.sync_slot i).blocks = keysOf b.blocks := by
  unfold Builder.sync_slot
  dsimp only
  split
  · rfl
  · dsimp only
    exact keysOf_updateB b.blocks b.current_block _

/-- `Builder::sync_stack_before_statement` never changes the key list of
the block map. -/
theorem keysOf_sync (b : Builder) :
    keysOf b.sync_stack_before_statement.blocks = keysOf b.blocks := by
  have main : ∀ (l : List Nat) (b : Builder),
      keysOf (l.foldl Builder.sync_slot b).blocks = keysOf b.blocks := by
    intro l
    induction l with
    | nil => intro b; rfl
    | cons hd tl ih =>
      intro b
      simp only [List.foldl]
      rw [ih, keysOf_sync_slot]
  unfold Builder.sync_stack_before_statement
  exact main _ b

/-- The state inside `visit_br_if_op` keeps the key list of the entry
state's block map. -/
theorem keysOf_brif_pre (b : Builder) (d : Nat) :
    keysOf (brif_pre b d).blocks = keysOf b.blocks := by
  unfold brif_pre
  rw [keysOf_sync]
  rw [pop_branch_params_only_stack (b.pop).2 d]
  dsimp only
  rw [pop_only_stack b]


/-- C6 amended: the decoder's `visit_br_if_op` writes a `BrIf` terminator
whose two successors are distinct whenever the branch target differs from
the fresh `next_block_index` (in a real decoder state the target is an
already-allocated key and `next_block_index` is fresh, so they always
differ), both successors of that `BrIf` are keys of the block map after
the op whenever the branch target was a key before it (the fall-through
successor is the freshly inserted key itself), and jump threading keeps
every terminator target inside the block map's key set.  Jump threading
may however make the two successors of a `BrIf` equal (see the C6
counterexample), which is the only part of the original claim that
fails. -/
theorem C6_amended_brif_distinct_at_decode_and_targets_stay_in_map :
    (∀ (b : Builder) (d : Nat) (blk : Block),
      lookupB (b.visit_br_if_op d).blocks b.current_block = some blk →
      (b.branch_target_block d ≠ b.next_block_index →
        brIfDistinctTargets blk.terminator) ∧
      (b.branch_target_block d ∈ keysOf b.blocks →
        ∀ t ∈ blk.terminator.successors, t ∈ keysOf (b.visit_br_if_op d).blocks)) ∧
    (∀ f : Func, targetsClosed f → targetsClosed f.jump_threading) := by
  constructor
  · intro b d blk hlk
    rw [visit_br_if_op_blocks, (brif_pre_fields b d).1, lookupB_updateB_self] at hlk
    cases hbase : lookupB
        (insertB (brif_pre b d).next_block_index (brif_node b d) (brif_pre b d).blocks)
        b.current_block with
    | none => rw [hbase] at hlk; simp at hlk
    | some blk0 =>
      rw [hbase] at hlk
      simp only [Option.map_some'] at hlk
      cases hlk
      constructor
      · intro hne
        show brif_target b d ≠ (brif_pre b d).next_block_index
        rw [brif_target_eq, (brif_pre_fields b d).2.1]
        exact hne
      · intro hmem t ht
        rw [visit_br_if_op_blocks, keysOf_updateB]
        simp only [Terminator.successors, List.mem_cons, List.not_mem_nil,
          or_false] at ht
        rcases ht with h | h
        · exact mem_keysOf_insertB _ _ _ _ (Or.inr (by
            rw [keysOf_brif_pre, h, brif_target_eq]; exact hmem))
        · exact mem_keysOf_insertB _ _ _ _ (Or.inl h)
  · intro f hclosed e he t ht
    have hkeys : keysOf f.jump_threading.blocks = keysOf f.blocks :=
      keysOf_map_values f.blocks
        (fun x => x.remap_block_indices (trivial_blocks_map f.blocks))
    rw [hkeys]
    simp only [Func.jump_threading, List.mem_map] at he
    obtain ⟨e0, he0, he0eq⟩ := he
    have hsucc : (e0.2.remap_block_indices (trivial_blocks_map f.blocks)).successors =
        e0.2.successors.map (map_get (trivial_blocks_map f.blocks)) :=
      remap_successors e0.2 (trivial_blocks_map f.blocks)
    rw [← he0eq] at ht
    simp only [hsucc, List.mem_map] at ht
    obtain ⟨s, hs, hseq⟩ := ht
    rw [← hseq]
    exact map_get_trivial_mem f.blocks s (hclosed e0 he0 s hs)
      (fun e2 he2 t2 ht2 => hclosed e2 he2 t2 ht2)


/-- Popping branch arguments keeps the current block and frame stack. -/
theorem br_pre_fields (b : Builder) (d : Nat) :
    (br_pre b d).current_block = b.current_block ∧ (br_pre b d).frames = b.frames := by
  unfold br_pre
  rw [pop_branch_params_only_stack b d]
  exact ⟨rfl, rfl⟩

/-- `visit_br_op` at a depth whose frame is the `Func` frame: terminate the
current block with `Return(args)` directly (not a `Br` to the return
block), then run `after_unconditional_branch`. -/
theorem visit_br_op_func (b : Builder) (d : Nat)
    (hf : ((br_pre b d).frame_at d).kind.is_func = true) :
    b.visit_br_op d =
      ((br_pre b d).set_terminator (br_pre b d).current_block
        (.Return (br_args b d))).after_unconditional_branch := by
  unfold Builder.visit_br_op
  have hp : b.pop_branch_params d = (br_args b d, br_pre b d) := rfl
  simp only [hp]
  rw [if_pos hf]

/-- `after_unconditional_branch` appends `Drop` statements but never
changes a terminator. -/
theorem after_unconditional_branch_terminator (b : Builder) (k : Nat) :
    (lookupB (b.after_unconditional_branch).blocks k).map Block.terminator =
    (lookupB b.blocks k).map Block.terminator := by
  unfold Builder.after_unconditional_branch
  cases hl : b.frames.getLast? with
  | none => rfl
  | some fr =>
    dsimp only
    by_cases hk : k = b.current_block
    · subst hk
      rw [lookupB_updateB_self]
      rcases lookupB b.blocks b.current_block with _ | blk0
      · rfl
      · rfl
    · rw [lookupB_updateB_ne _ _ _ _ hk]

/-- Looking up the current block after `set_terminator` on it. -/
theorem set_terminator_lookup_self (b : Builder) (t : Terminator) :
    lookupB (b.set_terminator b.current_block t).blocks b.current_block =
      (lookupB b.blocks b.current_block).map
        (fun blk => { blk with terminator := t }) := by
  unfold Builder.set_terminator
  dsimp only
  exact lookupB_updateB_self _ _ _


/-- C7 amended: `Builder::new` creates the dedicated return block at index
1 with terminator `Return(block-params)`; but only the conditional
function-level branch (`visit_br_if_op` at the `Func` frame) targets that
return block — `visit_br_op` at the `Func` frame (which also implements
the `return` operator and `br` to the function frame) writes a `Return`
terminator directly on the current block, as does `visit_end_op`, so
block 1 need not hold the sole `Return` terminator. -/
theorem C7_amended_return_block_and_direct_returns :
    (∀ (env : ModuleEnv) (fi : Nat) (locals : List LocalDecl),
      (Builder.new env fi locals).return_block = 1 ∧
      lookupB (Builder.new env fi locals).blocks 1 =
        some ⟨(env.sub_type_at (env.type_index_of_function fi)).results, [],
          .Return ((((env.sub_type_at (env.type_index_of_function fi)).results).enum).map
            (fun p => .BlockParam p.1))⟩) ∧
    (∀ (b : Builder) (d : Nat) (blk : Block),
      (b.frame_at d).kind.is_func = true →
      lookupB (b.visit_br_op d).blocks b.current_block = some blk →
      blk.terminator = .Return (br_args b d)) ∧
    (∀ (b : Builder) (d : Nat) (blk : Block),
      (b.frame_at d).kind.is_func = true →
      lookupB (b.visit_br_if_op d).blocks b.current_block = some blk →
      brIfTrueTargetEq blk.terminator b.return_block) := by
  refine ⟨fun env fi locals => ⟨rfl, rfl⟩, ?_, ?_⟩
  · intro b d blk hf hlk
    have hf2 : ((br_pre b d).frame_at d).kind.is_func = true := by
      rw [frame_at_congr (br_pre b d) b d (br_pre_fields b d).2]
      exact hf
    rw [visit_br_op_func b d hf2] at hlk
    have hterm := after_unconditional_branch_terminator
      ((br_pre b d).set_terminator (br_pre b d).current_block
        (.Return (br_args b d))) b.current_block
    rw [hlk] at hterm
    rw [← (br_pre_fields b d).1] at hterm
    rw [set_terminator_lookup_self] at hterm
    cases hbase : lookupB (br_pre b d).blocks (br_pre b d).current_block with
    | none => rw [hbase] at hterm; cases hterm
    | some blk0 =>
      rw [hbase] at hterm
      simp only [Option.map_some'] at hterm
      exact Option.some_injective _ hterm
  · intro b d blk hf hlk
    rw [visit_br_if_op_blocks, (brif_pre_fields b d).1, lookupB_updateB_self] at hlk
    cases hbase : lookupB
        (insertB (brif_pre b d).next_block_index (brif_node b d) (brif_pre b d).blocks)
        b.current_block with
    | none => rw [hbase] at hlk; simp at hlk
    | some blk0 =>
      rw [hbase] at hlk
      simp only [Option.map_some'] at hlk
      cases hlk
      show brif_target b d = b.return_block
      rw [brif_target_eq]
      simp [Builder.branch_target_block, hf]


/-- Witness for the C6 amended theorem: a concrete `br_if 0` step writes a
`BrIf` with distinct targets, both of those targets (3 and the fresh 4)
are keys of the block map after the op, and jump threading on a concrete
closed function keeps targets inside the key set. -/
theorem C6_amended_witness :
    brIfDistinctTargets (Block.terminator ⟨[], [], .BrIf (.GetLocal 0) 3 4 []⟩) ∧
    ((3 : Nat) ∈ keysOf (builderBrIf.visit_br_if_op 0).blocks ∧
     (4 : Nat) ∈ keysOf (builderBrIf.visit_br_if_op 0).blocks) ∧
    targetsClosed funcDExtraPred.jump_threading :=
  ⟨(C6_amended_brif_distinct_at_decode_and_targets_stay_in_map.1 builderBrIf 0
      ⟨[], [], .BrIf (.GetLocal 0) 3 4 []⟩ rfl).1 (by decide),
   ⟨(C6_amended_brif_distinct_at_decode_and_targets_stay_in_map.1 builderBrIf 0
      ⟨[], [], .BrIf (.GetLocal 0) 3 4 []⟩ rfl).2 (by decide) 3 (by decide),
    (C6_amended_brif_distinct_at_decode_and_targets_stay_in_map.1 builderBrIf 0
      ⟨[], [], .BrIf (.GetLocal 0) 3 4 []⟩ rfl).2 (by decide) 4 (by decide)⟩,
   C6_amended_brif_distinct_at_decode_and_targets_stay_in_map.2 funcDExtraPred
      (by decide)⟩


/-- Witness for the C7 amended theorem at concrete states. -/
theorem C7_amended_witness :
    ((Builder.new envIdentityI32 0 []).return_block = 1 ∧
      lookupB (Builder.new envIdentityI32 0 []).blocks 1 =
        some ⟨(envIdentityI32.sub_type_at (envIdentityI32.type_index_of_function 0)).results,
          [], .Return ((((envIdentityI32.sub_type_at
            (envIdentityI32.type_index_of_function 0)).results).enum).map
              (fun p => .BlockParam p.1))⟩) ∧
    (Block.terminator ⟨[], [], .Return [.GetLocal 0]⟩ =
      .Return (br_args builderReturn 0)) ∧
    brIfTrueTargetEq
      (Block.terminator ⟨[], [], .BrIf (.GetLocal 0) 1 4 []⟩) builderBrIf.return_block :=
  ⟨C7_amended_return_block_and_direct_returns.1 envIdentityI32 0 [],
   C7_amended_return_block_and_direct_returns.2.1 builderReturn 0
     ⟨[], [], .Return [.GetLocal 0]⟩ (by decide) rfl,
   C7_amended_return_block_and_direct_returns.2.2 builderBrIf 1
     ⟨[], [], .BrIf (.GetLocal 0) 1 4 []⟩ (by decide) rfl⟩

/-- C3 amended: materialization happens once per statement boundary, not
once per value.  A single run of `sync_stack_before_statement` on a state
with exactly one live operand slot (a single-result expression such as a
one-result call) mints exactly one fresh `tempN` local, emits exactly one
`LocalSetN` statement initializing it from the expression currently in the
slot, and replaces the slot by a `GetLocalN` of that local — so uses up to
the next boundary read that temp.  A value crossing `n` boundaries is
materialized `n` times, each later `LocalSetN` copying the previous temp
(see the C3 counterexample). -/
theorem C3_amended_one_temp_per_boundary (b : Builder) (fr : Frame)
    (e : Expression) (t : ValType)
    (hfr : b.frames.getLast? = some fr)
    (hlen : b.stack.length = fr.stack_height + 1)
    (he : b.stack.getD fr.stack_height .Bottom = e)
    (hty : b.expr_type e ((lookupB b.blocks b.current_block).getD
      ⟨[], [], .Unknown⟩) = [t]) :
    b.sync_stack_before_statement.locals =
      b.locals ++ [⟨t, "temp" ++ Nat.repr b.temp_count⟩] ∧
    b.sync_stack_before_statement.temp_count = b.temp_count + 1 ∧
    b.sync_stack_before_statement.stack =
      b.stack.set fr.stack_height (.GetLocalN [b.locals.length]) ∧
    b.sync_stack_before_statement.blocks =
      updateB b.blocks b.current_block (fun blk =>
        { blk with statements := blk.statements ++
          [.LocalSetN [b.locals.length] e] }) := by
  have hrange : List.range' fr.stack_height (b.stack.length - fr.stack_height) =
      [fr.stack_height] := by
    rw [hlen, Nat.add_sub_cancel_left]
    rfl
  have hsync : b.sync_stack_before_statement = b.sync_slot fr.stack_height := by
    unfold Builder.sync_stack_before_statement
    rw [hfr]
    dsimp only [Option.getD_some]
    rw [hrange]
    rfl
  rw [hsync]
  unfold Builder.sync_slot
  dsimp only
  rw [he, hty]
  have hr1 : List.range 1 = [0] := rfl
  refine ⟨?_, ?_, ?_, ?_⟩ <;> simp [hr1]


/-- Witness for the C3 amended theorem at a concrete state. -/
theorem C3_amended_one_temp_per_boundary_witness :
    builderOneCall.sync_stack_before_statement.locals =
      builderOneCall.locals ++ [⟨.I32, "temp" ++ Nat.repr builderOneCall.temp_count⟩] ∧
    builderOneCall.sync_stack_before_statement.temp_count =
      builderOneCall.temp_count + 1 ∧
    builderOneCall.sync_stack_before_statement.stack =
      builderOneCall.stack.set 0 (.GetLocalN [builderOneCall.locals.length]) ∧
    builderOneCall.sync_stack_before_statement.blocks =
      updateB builderOneCall.blocks builderOneCall.current_block (fun blk =>
        { blk with statements := blk.statements ++
          [.LocalSetN [builderOneCall.locals.length] (.Call 1 [])] }) :=
  C3_amended_one_temp_per_boundary builderOneCall ⟨.Func, .FuncType 0, false, 0⟩
    (.Call 1 []) .I32 rfl rfl rfl rfl

/-! ## RPO renumbering (C8) -/

theorem lookupB_insertB_self (k : Nat) (v : Block) (m : List (Nat × Block)) :
    lookupB (insertB k v m) k = some v := by
  induction m with
  | nil => simp [insertB, lookupB]
  | cons e tl ih =>
    obtain ⟨k', v'⟩ := e
    by_cases h1 : k < k'
    · simp [insertB, lookupB, h1]
    · by_cases h2 : k = k'
      · simp [insertB, lookupB, h1, h2]
      · simp only [insertB, if_neg h1, if_neg h2]
        have : ¬(k' = k) := fun hh => h2 hh.symm
        simp [lookupB, this, ih]

theorem lookupB_insertB_ne (k : Nat) (v : Block) (m : List (Nat × Block))
    (k' : Nat) (h : k' ≠ k) : lookupB (insertB k v m) k' = lookupB m k' := by
  have hne : ¬(k = k') := fun hh => h hh.symm
  induction m with
  | nil => simp [insertB, lookupB, hne]
  | cons e tl ih =>
    obtain ⟨a, b⟩ := e
    by_cases h1 : k < a
    · simp [insertB, lookupB, h1, hne]
    · by_cases h2 : k = a
      · subst h2
        simp [insertB, lookupB, h1, hne]
      · simp only [insertB, if_neg h1, if_neg h2]
        by_cases h3 : a = k'
        · simp [lookupB, h3]
        · simp [lookupB, h3, ih]

theorem keysOf_insertB_perm (k : Nat) (v : Block) (m : List (Nat × Block))
    (hk : k ∉ keysOf m) : (keysOf (insertB k v m)).Perm (k :: keysOf m) := by
  induction m with
  | nil => simp [insertB, keysOf]
  | cons e tl ih =>
    obtain ⟨a, b⟩ := e
    have hka : k ∉ keysOf tl ∧ ¬(k = a) := by
      constructor
      · intro hh; exact hk (by simp [keysOf] at hh ⊢; right; exact hh)
      · intro hh; exact hk (by simp [keysOf, hh])
    by_cases h1 : k < a
    · simp [insertB, h1, keysOf]
    · simp only [insertB, if_neg h1, if_neg hka.2]
      have hperm := ih hka.1
      have step1 : keysOf ((a, b) :: insertB k v tl) = a :: keysOf (insertB k v tl) := by
        simp [keysOf]
      have step2 : k :: keysOf ((a, b) :: tl) = k :: a :: keysOf tl := by
        simp [keysOf]
      rw [step1, step2]
      exact (List.Perm.cons a hperm).trans (List.Perm.swap k a (keysOf tl))

/-- A key present in a block map has a lookup result. -/
theorem lookupB_isSome_of_mem (m : List (Nat × Block)) (x : Nat)
    (h : x ∈ keysOf m) : ∃ b, lookupB m x = some b := by
  induction m with
  | nil => cases h
  | cons e tl ih =>
    by_cases he : e.1 = x
    · exact ⟨e.2, by simp [lookupB, he]⟩
    · have : x ∈ keysOf tl := by
        rcases List.mem_cons.mp h with h1 | h1
        · exact absurd h1.symm he
        · exact h1
      obtain ⟨b, hb⟩ := ih this
      exact ⟨b, by simp [lookupB, he, hb]⟩

/-- A successful lookup names an entry of the list. -/
theorem mem_of_lookupB (m : List (Nat × Block)) (x : Nat) (b : Block)
    (h : lookupB m x = some b) : (x, b) ∈ m := by
  induction m with
  | nil => cases h
  | cons e tl ih =>
    by_cases he : e.1 = x
    · simp only [lookupB, if_pos he] at h
      cases h
      subst he
      exact List.mem_cons_self _ _
    · simp only [lookupB, if_neg he] at h
      exact List.mem_cons_of_mem e (ih h)

/-- Folding `insertB` over pairs whose keys avoid `k` leaves lookups at `k`
unchanged. -/
theorem lookupB_foldl_insertB_not_mem (pairs : List (Nat × Block))
    (acc : List (Nat × Block)) (k : Nat) (h : k ∉ pairs.map Prod.fst) :
    lookupB (pairs.foldl (fun nb e => insertB e.1 e.2 nb) acc) k = lookupB acc k := by
  induction pairs generalizing acc with
  | nil => rfl
  | cons e tl ih =>
    have hk1 : k ≠ e.1 := by
      intro hh
      exact h (by simp [hh])
    have hk2 : k ∉ tl.map Prod.fst := by
      intro hh
      exact h (by simp [hh])
    simp only [List.foldl]
    rw [ih (insertB e.1 e.2 acc) hk2, lookupB_insertB_ne e.1 e.2 acc k hk1]

/-- Folding `insertB` over pairs with pairwise-distinct keys makes each
pair retrievable. -/
theorem lookupB_foldl_insertB_mem (pairs : List (Nat × Block))
    (acc : List (Nat × Block)) (k : Nat) (v : Block)
    (hnodup : (pairs.map Prod.fst).Nodup) (hmem : (k, v) ∈ pairs) :
    lookupB (pairs.foldl (fun nb e => insertB e.1 e.2 nb) acc) k = some v := by
  induction pairs generalizing acc with
  | nil => cases hmem
  | cons e tl ih =>
    rcases List.mem_cons.mp hmem with h1 | h1
    · cases h1
      have hk : k ∉ tl.map Prod.fst := by
        have := hnodup
        simp only [List.map, List.nodup_cons] at this
        exact this.1
      simp only [List.foldl]
      rw [lookupB_foldl_insertB_not_mem tl (insertB k v acc) k hk,
        lookupB_insertB_self]
    · have hnd : (tl.map Prod.fst).Nodup := by
        simp only [List.map, List.nodup_cons] at hnodup
        exact hnodup.2
      simp only [List.foldl]
      exact ih (insertB e.1 e.2 acc) hnd h1

/-- Keys of an `insertB` fold over fresh, pairwise-distinct keys: a
permutation of the accumulated keys followed by the pair keys. -/
theorem keysOf_foldl_insertB_perm (pairs : List (Nat × Block))
    (acc : List (Nat × Block))
    (hnodup : (pairs.map Prod.fst ++ keysOf acc).Nodup) :
    (keysOf (pairs.foldl (fun nb e => insertB e.1 e.2 nb) acc)).Perm
      (pairs.map Prod.fst ++ keysOf acc) := by
  induction pairs generalizing acc with
  | nil => exact List.Perm.refl _
  | cons e tl ih =>
    simp only [List.map, List.cons_append, List.nodup_cons] at hnodup
    have hmemacc : e.1 ∉ keysOf acc := fun hh => hnodup.1 (by simp [hh])
    have hkeysins : (keysOf (insertB e.1 e.2 acc)).Perm (e.1 :: keysOf acc) :=
      keysOf_insertB_perm e.1 e.2 acc hmemacc
    have hperm2 : (tl.map Prod.fst ++ keysOf (insertB e.1 e.2 acc)).Perm
        (tl.map Prod.fst ++ (e.1 :: keysOf acc)) :=
      List.Perm.append_left _ hkeysins
    have hmid : (tl.map Prod.fst ++ (e.1 :: keysOf acc)).Perm
        (e.1 :: (tl.map Prod.fst ++ keysOf acc)) :=
      List.perm_middle
    have hnodup2 : (tl.map Prod.fst ++ keysOf (insertB e.1 e.2 acc)).Nodup :=
      (hperm2.trans hmid).nodup_iff.mpr
        (List.nodup_cons.mpr ⟨hnodup.1, hnodup.2⟩)
    simp only [List.foldl]
    refine ((ih (insertB e.1 e.2 acc) hnodup2).trans ?_)
    exact (List.Perm.append_left _ hkeysins).trans List.perm_middle

/-- Looking up the `j`-th element of a duplicate-free list in the swapped
enumeration (the `old → rpo index` table of `Func::renumber`) yields
`k + j` when enumeration starts at `k`. -/
theorem lookup_enumFrom_swap (l : List Nat) (hnd : l.Nodup) (k j : Nat)
    (hj : j < l.length) :
    List.lookup (l.get ⟨j, hj⟩) ((List.enumFrom k l).map (fun p => (p.2, p.1))) =
      some (k + j) := by
  induction l generalizing k j with
  | nil => cases hj
  | cons a tl ih =>
    cases j with
    | zero => simp [List.lookup]
    | succ j0 =>
      have hx : (a :: tl).get ⟨j0 + 1, hj⟩ = tl.get ⟨j0, Nat.lt_of_succ_lt_succ hj⟩ :=
        rfl
      have hmem : tl.get ⟨j0, Nat.lt_of_succ_lt_succ hj⟩ ∈ tl := List.get_mem _ _ _
      have hne : ((a :: tl).get ⟨j0 + 1, hj⟩ == a) = false := by
        rw [hx]
        simp only [beq_eq_false_iff_ne]
        intro hh
        exact (List.nodup_cons.mp hnd).1 (hh ▸ hmem)
      simp only [List.enumFrom, List.map, List.lookup, hne]
      rw [hx]
      rw [ih (List.nodup_cons.mp hnd).2 (k + 1) j0 (Nat.lt_of_succ_lt_succ hj)]
      congr 1
      omega

/-- `map_get` through the renumbering table is position-in-rpo. -/
theorem map_get_rpo_mapping (rpo : List Nat) (hnd : rpo.Nodup) (j : Nat)
    (hj : j < rpo.length) :
    map_get (rpo_mapping rpo) (rpo.get ⟨j, hj⟩) = j := by
  unfold map_get rpo_mapping
  have := lookup_enumFrom_swap rpo hnd 0 j hj
  simp only [List.enum] at *
  rw [this]
  simp

/-- The reverse post-order list always starts with the entry block. -/
theorem rpo_head (f : Func) : ∃ tl, f.rpo = f.entry_block :: tl := by
  unfold Func.rpo
  have hfuel : po_fuel f.blocks = (po_fuel f.blocks - 1) + 1 := by
    unfold po_fuel
    omega
  rw [hfuel]
  simp only [po_recursive, List.mem_nil_iff, if_false]
  rw [List.reverse_append]
  simp only [List.reverse_cons, List.reverse_nil, List.nil_append, List.singleton_append]
  exact ⟨_, rfl⟩

/-- C8: after `Func::renumber`, the block map keys are exactly the dense
indices `0, 1, …, n-1` (`n` the number of blocks), assigned in reverse
post-order from the entry: the block stored at new key `j` is the old
block at the `j`-th rpo position with its terminator remapped through the
same table, and the entry pointer is remapped to index 0.  The two
hypotheses say that the DFS from the entry reaches every key of the block
map and that keys are duplicate-free — exactly the state of affairs after
`eliminate_dead_code`, which precedes `renumber` in `Func::optimize`. -/
theorem C8_renumber_dense_rpo (f : Func)
    (hperm : f.rpo.Perm (keysOf f.blocks))
    (hnodup : (keysOf f.blocks).Nodup) :
    (keysOf f.renumber.blocks).Perm (List.range f.blocks.length) ∧
    f.renumber.entry_block = 0 ∧
    ∀ j (hj : j < f.rpo.length),
      lookupB f.renumber.blocks j =
        (lookupB f.blocks (f.rpo.get ⟨j, hj⟩)).map
          (fun blk => blk.remap_block_indices (rpo_mapping f.rpo)) := by
  have hlen_keys : (keysOf f.blocks).length = f.blocks.length := by simp [keysOf]
  have hrlen : f.rpo.length = f.blocks.length := hperm.length_eq.trans hlen_keys
  have hrnodup : f.rpo.Nodup := (hperm.nodup_iff).mpr hnodup
  have hfold : f.renumber.blocks =
      (f.blocks.map (fun e =>
        ((map_get (rpo_mapping f.rpo) e.1, e.2.remap_block_indices (rpo_mapping f.rpo))
          : Nat × Block))).foldl
        (fun nb e => insertB e.1 e.2 nb) [] := by
    unfold Func.renumber Func.remap_block_indices
    dsimp only
    rw [List.foldl_map]
  have hpk : (f.blocks.map (fun e =>
      ((map_get (rpo_mapping f.rpo) e.1, e.2.remap_block_indices (rpo_mapping f.rpo))
        : Nat × Block))).map Prod.fst =
      (keysOf f.blocks).map (fun k => map_get (rpo_mapping f.rpo) k) := by
    simp [keysOf, List.map_map]
  have hrange : f.rpo.map (fun k => map_get (rpo_mapping f.rpo) k) =
      List.range f.blocks.length := by
    apply List.ext_get
    · simp [hrlen]
    · intro i h1 h2
      have hi : i < f.rpo.length := by simpa using h1
      have hget : (f.rpo.map (fun k => map_get (rpo_mapping f.rpo) k)).get ⟨i, h1⟩ =
          map_get (rpo_mapping f.rpo) (f.rpo.get ⟨i, hi⟩) := by
        simp
      rw [hget, map_get_rpo_mapping f.rpo hrnodup i hi]
      simp
  have hkeysperm : ((keysOf f.blocks).map
      (fun k => map_get (rpo_mapping f.rpo) k)).Perm (List.range f.blocks.length) := by
    have h1 : ((keysOf f.blocks).map (fun k => map_get (rpo_mapping f.rpo) k)).Perm
        (f.rpo.map (fun k => map_get (rpo_mapping f.rpo) k)) :=
      (hperm.symm).map _
    rw [hrange] at h1
    exact h1
  have hpknodup : ((f.blocks.map (fun e =>
      ((map_get (rpo_mapping f.rpo) e.1, e.2.remap_block_indices (rpo_mapping f.rpo))
        : Nat × Block))).map Prod.fst).Nodup := by
    rw [hpk]
    exact hkeysperm.nodup_iff.mpr (List.nodup_range _)
  refine ⟨?_, ?_, ?_⟩
  · rw [hfold]
    have hfoldperm := keysOf_foldl_insertB_perm
      (f.blocks.map (fun e =>
        ((map_get (rpo_mapping f.rpo) e.1, e.2.remap_block_indices (rpo_mapping f.rpo))
          : Nat × Block))) []
      (by simpa [keysOf] using hpknodup)
    have hnil : keysOf ([] : List (Nat × Block)) = [] := rfl
    rw [hnil, List.append_nil] at hfoldperm
    rw [hpk] at hfoldperm
    exact hfoldperm.trans hkeysperm
  · obtain ⟨tl, htl⟩ := rpo_head f
    have h0 : 0 < f.rpo.length := by rw [htl]; simp
    have hget0 : f.rpo.get ⟨0, h0⟩ = f.entry_block := by
      simp [htl]
    have hentry : f.renumber.entry_block = map_get (rpo_mapping f.rpo) f.entry_block := by
      unfold Func.renumber Func.remap_block_indices
      rfl
    rw [hentry, ← hget0, map_get_rpo_mapping f.rpo hrnodup 0 h0]
  · intro j hj
    have hx : f.rpo.get ⟨j, hj⟩ ∈ keysOf f.blocks :=
      hperm.mem_iff.mp (List.get_mem _ _ _)
    obtain ⟨bx, hbx⟩ := lookupB_isSome_of_mem f.blocks _ hx
    have hmem : (f.rpo.get ⟨j, hj⟩, bx) ∈ f.blocks := mem_of_lookupB _ _ _ hbx
    have hpair : ((j : Nat), bx.remap_block_indices (rpo_mapping f.rpo)) ∈
        f.blocks.map (fun e =>
          ((map_get (rpo_mapping f.rpo) e.1, e.2.remap_block_indices (rpo_mapping f.rpo))
            : Nat × Block)) := by
      refine List.mem_map.mpr ⟨(f.rpo.get ⟨j, hj⟩, bx), hmem, ?_⟩
      rw [map_get_rpo_mapping f.rpo hrnodup j hj]
    rw [hfold, lookupB_foldl_insertB_mem _ [] j
      (bx.remap_block_indices (rpo_mapping f.rpo)) hpknodup hpair, hbx]
    rfl

/-- Witness for C8 at a concrete all-reachable function. -/
theorem C8_renumber_dense_rpo_witness :
    funcSmallRPO.rpo.Perm (keysOf funcSmallRPO.blocks) ∧
    (keysOf funcSmallRPO.blocks).Nodup ∧
    funcSmallRPO.renumber.entry_block = 0 :=
  ⟨by decide, by decide,
   (C8_renumber_dense_rpo funcSmallRPO (by decide) (by decide)).2.1⟩
